import Mathlib

/-!
# parquet-summary: per-column statistics aggregation

A shallow embedding of `src/main.cpp`.  The program reads the metadata of a
parquet file, builds one `ColumnSummary<T>` per schema column and folds the
statistics object of every column chunk of every row group into it.

Modelling conventions.

* `std::int64_t` fields are `Int` values kept in the signed 64-bit range by
  `wrap64` (two's complement wrap-around on `++` and `+=`).
* `std::optional<T>` is `Option T`; a null `std::shared_ptr<parquet::Statistics>`
  is `none`.
* The parquet library is outside the repository.  A statistics object is a
  value of `Statistics`, one constructor per `parquet::TypedStatistics<DType>`
  instantiation; `dynamic_cast` to `TypedStatistics<ParquetTypeMap<T>::type>`
  succeeds exactly on the constructor of that `DType`.
* `float` and `double` values are carried as their IEEE-754 bit patterns.
* A `std::string` is the list of its bytes (unsigned chars).
-/

namespace ParquetSummary

/-! ## Machine integers -/

/-- Two's complement reduction of an integer to the range of `std::int64_t`. -/
def wrap64 (x : Int) : Int := (x + 2 ^ 63) % 2 ^ 64 - 2 ^ 63

/-- Largest value of `std::int64_t`. -/
def INT64_MAX : Int := 2 ^ 63 - 1

/-- Smallest value of `std::int64_t`. -/
def INT64_MIN : Int := -(2 ^ 63)

/-! ## Values carried by statistics objects -/

/-- One byte of a `parquet::ByteArray` or of a `std::string`, as an unsigned char. -/
abbrev Byte := Fin 256

/-- The enumerators of `parquet::Type::type`, by integer tag. -/
abbrev ParquetType := Int

namespace ParquetType
abbrev BOOLEAN : ParquetType := 0
abbrev INT32 : ParquetType := 1
abbrev INT64 : ParquetType := 2
abbrev INT96 : ParquetType := 3
abbrev FLOAT : ParquetType := 4
abbrev DOUBLE : ParquetType := 5
abbrev BYTE_ARRAY : ParquetType := 6
abbrev FIXED_LEN_BYTE_ARRAY : ParquetType := 7
abbrev UNDEFINED : ParquetType := 8
end ParquetType

/-- The data-type classes `parquet::PhysicalType<...>` a `TypedStatistics` can be
instantiated with. -/
inductive DType where
  | BooleanType
  | Int32Type
  | Int64Type
  | Int96Type
  | FloatType
  | DoubleType
  | ByteArrayType
  | FLBAType
  deriving DecidableEq, Repr

/-- The interface of `parquet::TypedStatistics<DType>` used by the program:
`HasMinMax()`, `min()`, `max()`, `HasNullCount()`, `null_count()`. -/
structure TypedStatistics (V : Type) where
  HasMinMax : Bool
  min : V
  max : V
  HasNullCount : Bool
  null_count : Int
  deriving DecidableEq, Repr

/-- A non-null `parquet::Statistics` object: it is a `TypedStatistics<DType>` for
exactly one `DType`. -/
inductive Statistics where
  | boolean (s : TypedStatistics Bool)
  | int32 (s : TypedStatistics Int)
  | int64 (s : TypedStatistics Int)
  | int96 (s : TypedStatistics (Nat × Nat × Nat))
  | float (s : TypedStatistics Nat)
  | double (s : TypedStatistics Nat)
  | byte_array (s : TypedStatistics (List Byte))
  | flba (s : TypedStatistics (List Byte))
  deriving DecidableEq, Repr

/-- The `DType` a statistics object was instantiated with (its dynamic type). -/
def Statistics.dtype : Statistics → DType
  | .boolean _ => .BooleanType
  | .int32 _ => .Int32Type
  | .int64 _ => .Int64Type
  | .int96 _ => .Int96Type
  | .float _ => .FloatType
  | .double _ => .DoubleType
  | .byte_array _ => .ByteArrayType
  | .flba _ => .FLBAType

/-! ## The value types `T` of `ColumnSummary<T>` -/

/-- The six types `T` for which `ParquetTypeMap<T>` is specialised
(main.cpp:18-29), the alternatives of `ColumnSummaryVariant`. -/
inductive ValueKind where
  | bool
  | int32
  | int64
  | float
  | double
  | string
  deriving DecidableEq, Repr

/-- The Lean carrier of each value type: `bool`, `int32_t`, `int64_t`, the bit
pattern of a `float` or `double`, the bytes of a `std::string`. -/
@[reducible] def ValueKind.T : ValueKind → Type
  | .bool => Bool
  | .int32 => Int
  | .int64 => Int
  | .float => Nat
  | .double => Nat
  | .string => List Byte

/-- The type map `ParquetTypeMap<T>::type` (main.cpp:18-29). -/
def ParquetTypeMap : ValueKind → DType
  | .bool => .BooleanType
  | .int32 => .Int32Type
  | .int64 => .Int64Type
  | .float => .FloatType
  | .double => .DoubleType
  | .string => .ByteArrayType

/-- The cast `dynamic_cast<const TypedStatistics<ParquetTypeMap<T>::type>*>(stats.get())`
(main.cpp:47): `none` for a null pointer and for an object of another dynamic
type.  For `std::string` the `ByteArray` bounds are read as their bytes
(main.cpp:52-59). -/
def typed_cast : (k : ValueKind) → Option Statistics → Option (TypedStatistics k.T)
  | .bool, some (.boolean s) => some s
  | .int32, some (.int32 s) => some s
  | .int64, some (.int64 s) => some s
  | .float, some (.float s) => some s
  | .double, some (.double s) => some s
  | .string, some (.byte_array s) => some s
  | _, _ => none

/-- Sign-magnitude key of an IEEE-754 bit pattern with `e` exponent and `m`
mantissa bits: `none` for a NaN, otherwise an integer ordered like the value
(both zeros map to 0). -/
def float_key (e m : Nat) (x : Nat) : Option Int :=
  let mag := x % 2 ^ (e + m)
  let sign := (x / 2 ^ (e + m)) % 2
  if (2 ^ e - 1) * 2 ^ m < mag then none
  else if sign = 1 then some (-(mag : Int)) else some (mag : Int)

/-- IEEE-754 `a > b` on bit patterns: false as soon as one side is a NaN. -/
def float_gt (e m : Nat) (a b : Nat) : Bool :=
  match float_key e m a, float_key e m b with
  | some x, some y => decide (y < x)
  | _, _ => false

/-- Three-way `std::string::compare`: bytes are compared as unsigned chars up to
the shorter length, then the lengths decide. -/
def string_compare : List Byte → List Byte → Int
  | [], [] => 0
  | [], _ :: _ => -1
  | _ :: _, [] => 1
  | a :: as, b :: bs =>
    if a < b then -1 else if b < a then 1 else string_compare as bs

/-- The comparison `lhs > rhs` of two `std::string` values. -/
def string_gt (a b : List Byte) : Bool := decide (0 < string_compare a b)

/-- The built-in `a > b` of the value type `T`. -/
def value_gt : (k : ValueKind) → k.T → k.T → Bool
  | .bool, a, b => a && !b
  | .int32, a, b => decide (b < a)
  | .int64, a, b => decide (b < a)
  | .float, a, b => float_gt 8 23 a b
  | .double, a, b => float_gt 11 52 a b
  | .string, a, b => string_gt a b

/-- The comparison `opt > value` of `std::optional<T>` with a `T`: false when the
optional is empty. -/
def optional_gt (k : ValueKind) : Option k.T → k.T → Bool
  | none, _ => false
  | some a, b => value_gt k a b

/-! ## `ColumnSummary<T>` (main.cpp:32-79) -/

/-- The class `ColumnSummary<T>` with its default member initialisers. -/
structure ColumnSummary (T : Type) where
  name : String
  physical_type : ParquetType
  null_counts : Int := 0
  min : Option T := none
  max : Option T := none
  chunks : Int := 0
  chunks_missing_null_count : Int := 0
  chunks_missing_min_max : Int := 0

/-- The method `ColumnSummary<T>::update_with_chunk_stats` (main.cpp:44-78). -/
def update_with_chunk_stats (k : ValueKind) (self : ColumnSummary k.T)
    (stats : Option Statistics) : ColumnSummary k.T :=
  -- ++chunks;
  let s0 : ColumnSummary k.T := { self with chunks := wrap64 (self.chunks + 1) }
  let typed_stats := typed_cast k stats
  -- if (typed_stats && typed_stats->HasMinMax()) { ... } else { ++chunks_missing_min_max; }
  let s1 : ColumnSummary k.T :=
    match typed_stats with
    | some ts =>
      if ts.HasMinMax then
        let chunk_min := ts.min
        let chunk_max := ts.max
        -- if (!min || min > chunk_min) { min = chunk_min; }
        let sa : ColumnSummary k.T :=
          if !s0.min.isSome || optional_gt k s0.min chunk_min then
            { s0 with min := some chunk_min }
          else s0
        -- if (!max || max > chunk_max) { max = chunk_max; }
        if !sa.max.isSome || optional_gt k sa.max chunk_max then
          { sa with max := some chunk_max }
        else sa
      else
        { s0 with chunks_missing_min_max := wrap64 (s0.chunks_missing_min_max + 1) }
    | none =>
      { s0 with chunks_missing_min_max := wrap64 (s0.chunks_missing_min_max + 1) }
  -- if (typed_stats && typed_stats->HasNullCount()) { null_counts += ...; }
  -- else { ++chunks_missing_null_count; }
  match typed_stats with
  | some ts =>
    if ts.HasNullCount then
      { s1 with null_counts := wrap64 (s1.null_counts + ts.null_count) }
    else
      { s1 with chunks_missing_null_count := wrap64 (s1.chunks_missing_null_count + 1) }
  | none =>
    { s1 with chunks_missing_null_count := wrap64 (s1.chunks_missing_null_count + 1) }

/-- The result of folding a sequence of chunk statistics objects, in order, with
`update_with_chunk_stats`. -/
def fold_chunks (k : ValueKind) (s : ColumnSummary k.T) (l : List (Option Statistics)) :
    ColumnSummary k.T :=
  l.foldl (update_with_chunk_stats k) s

/-! ## `ColumnSummaryVariant` and `make_column_summary_variant` (main.cpp:81-135) -/

/-- The `std::variant` of the six `ColumnSummary<T>` instantiations: the index of
the active alternative and its summary. -/
structure ColumnSummaryVariant where
  kind : ValueKind
  col : ColumnSummary kind.T

/-- The part of `parquet::ColumnDescriptor` the program reads. -/
structure ColumnDescriptor where
  name : String
  physical_type : ParquetType

/-- The summary `ColumnSummary<T>{col->name(), col->physical_type()}`: every other
member keeps its default initialiser. -/
def fresh (k : ValueKind) (name : String) (physical_type : ParquetType) : ColumnSummary k.T :=
  { name := name, physical_type := physical_type }

/-- The function `make_column_summary_variant` (main.cpp:91-135); a thrown
`std::runtime_error` is `Except.error` with its message. -/
def make_column_summary_variant (col : ColumnDescriptor) : Except String ColumnSummaryVariant :=
  if col.physical_type = ParquetType.BOOLEAN then
    .ok ⟨.bool, fresh .bool col.name col.physical_type⟩
  else if col.physical_type = ParquetType.INT32 then
    .ok ⟨.int32, fresh .int32 col.name col.physical_type⟩
  else if col.physical_type = ParquetType.INT64 then
    .ok ⟨.int64, fresh .int64 col.name col.physical_type⟩
  else if col.physical_type = ParquetType.INT96 then
    .error "Unsupported type"
  else if col.physical_type = ParquetType.FLOAT then
    .ok ⟨.float, fresh .float col.name col.physical_type⟩
  else if col.physical_type = ParquetType.DOUBLE then
    .ok ⟨.double, fresh .double col.name col.physical_type⟩
  else if col.physical_type = ParquetType.BYTE_ARRAY then
    .ok ⟨.string, fresh .string col.name col.physical_type⟩
  else if col.physical_type = ParquetType.FIXED_LEN_BYTE_ARRAY then
    .ok ⟨.string, fresh .string col.name col.physical_type⟩
  else if col.physical_type = ParquetType.UNDEFINED then
    .error "Undefined type"
  else
    .error "Unknown type"

/-! ## The aggregation loops of `main` (main.cpp:248-267) -/

/-- The call `std::visit([&stats](auto& col) { col.update_with_chunk_stats(stats); }, v)`
(main.cpp:262-264). -/
def visit_update (v : ColumnSummaryVariant) (stats : Option Statistics) : ColumnSummaryVariant :=
  ⟨v.kind, update_with_chunk_stats v.kind v.col stats⟩

/-- The summaries vector built by the first loop of `main` (main.cpp:248-253):
the first unsupported column aborts the construction. -/
def build_summaries : List ColumnDescriptor → Except String (List ColumnSummaryVariant)
  | [] => .ok []
  | col :: rest =>
    match make_column_summary_variant col with
    | .error e => .error e
    | .ok summary =>
      match build_summaries rest with
      | .error e => .error e
      | .ok summaries => .ok (summary :: summaries)

/-- A row group as the driver sees it: the statistics object of each of its column
chunks, `none` when `col_chunk->statistics()` is null. -/
abbrev RowGroup := List (Option Statistics)

/-- The inner loop `for (int c = 0; c < row_group->num_columns(); ++c)`
(main.cpp:258-266), started at column index `c` with the chunks still to visit.
A chunk whose statistics pointer is null is skipped by `if (stats)`; indexing
`summaries[c]` past the end of the vector has no defined result (`none`). -/
def column_loop : Nat → List (Option Statistics) → List ColumnSummaryVariant →
    Option (List ColumnSummaryVariant)
  | _, [], summaries => some summaries
  | c, none :: rest, summaries => column_loop (c + 1) rest summaries
  | c, some st :: rest, summaries =>
    match summaries.get? c with
    | none => none
    | some col => column_loop (c + 1) rest (summaries.set c (visit_update col (some st)))

/-- The outer loop `for (int rg = 0; rg < metadata->num_row_groups(); ++rg)`
(main.cpp:255-267). -/
def row_group_loop : List RowGroup → List ColumnSummaryVariant →
    Option (List ColumnSummaryVariant)
  | [], summaries => some summaries
  | row_group :: rest, summaries =>
    match column_loop 0 row_group summaries with
    | none => none
    | some summaries1 => row_group_loop rest summaries1

/-- The aggregation performed by `main` (main.cpp:248-267): summary construction
followed by the row-group loop.  `Except.error` is the exception thrown by
`make_column_summary_variant`. -/
def aggregate (schema : List ColumnDescriptor) (row_groups : List RowGroup) :
    Except String (Option (List ColumnSummaryVariant)) :=
  match build_summaries schema with
  | .error e => .error e
  | .ok summaries => .ok (row_group_loop row_groups summaries)

/-! ## Table rendering (main.cpp:137-221)

Text is `String`, one character per C++ `char`; `size()` is `String.length`.
Widths are `size_t` values, far below its limit, and are `Nat`. -/

/-- The struct `TableWidths` with its default member initialisers
(main.cpp:137-146). -/
structure TableWidths where
  name : Nat := 4
  physical_type : Nat := 12
  nulls : Nat := 9
  min : Nat := 3
  max : Nat := 3
  chunks : Nat := 6
  chunks_missing_min_max : Nat := 19
  chunks_missing_null_count : Nat := 22

/-- Text produced by code outside the repository, taken as a parameter:
`parquet::TypeToString` and the stream output of a `float` and of a `double`
(given by bit pattern) under `std::fixed` with precision 5. -/
structure Rendering where
  TypeToString : ParquetType → String
  fixed_float : Nat → String
  fixed_double : Nat → String

/-- The text `std::to_string` gives for a `std::int64_t`: decimal digits, with a
leading minus sign for a negative value. -/
def to_string (x : Int) : String := toString x

/-- The `std::string` holding the given raw bytes, one character per byte. -/
def bytes_to_string (b : List Byte) : String :=
  String.mk (b.map fun c => Char.ofNat c.val)

/-- The stream output `os << *v` of a value of type `T` (main.cpp:152-157): a
`bool` prints as 1 or 0, an integer in decimal, a floating-point value in fixed
notation, a string as its characters. -/
def stream_value (r : Rendering) : (k : ValueKind) → k.T → String
  | .bool, b => if b then "1" else "0"
  | .int32, x => toString x
  | .int64, x => toString x
  | .float, x => r.fixed_float x
  | .double, x => r.fixed_double x
  | .string, s => bytes_to_string s

/-- The function `option_to_string` (main.cpp:148-159). -/
def option_to_string (r : Rendering) (k : ValueKind) : Option k.T → String
  | none => "N/A"
  | some v => stream_value r k v

/-- The body of the loop of `compute_widths` for one summary (main.cpp:165-173). -/
def measure_row (r : Rendering) (w : TableWidths) (v : ColumnSummaryVariant) : TableWidths :=
  { w with
    name := max w.name v.col.name.length
    physical_type := max w.physical_type (r.TypeToString v.col.physical_type).length
    nulls := max w.nulls (to_string v.col.null_counts).length
    chunks := max w.chunks (to_string v.col.chunks).length
    chunks_missing_min_max :=
      max w.chunks_missing_min_max (to_string v.col.chunks_missing_min_max).length
    min := max w.min (option_to_string r v.kind v.col.min).length
    max := max w.max (option_to_string r v.kind v.col.max).length }

/-- The function `compute_widths` (main.cpp:161-176). -/
def compute_widths (r : Rendering) (summaries : List ColumnSummaryVariant) : TableWidths :=
  summaries.foldl (measure_row r) {}

/-- The function `center` (main.cpp:178-189). -/
def center (s : String) (width : Nat) : String :=
  if s.length > width then s.take width
  else
    let padding := width - s.length
    let left := padding / 2
    let right := padding - left
    String.mk (List.replicate left ' ') ++ s ++ String.mk (List.replicate right ' ')

/-- The header row written by `print_table` (main.cpp:196-204). -/
def header_row (w : TableWidths) : String :=
  center "Column" w.name ++ " " ++
  center "PhysicalType" w.physical_type ++ " " ++
  center "NullCount" w.nulls ++ " " ++
  center "Min" w.min ++ " " ++
  center "Max" w.max ++ " " ++
  center "Chunks" w.chunks ++ " " ++
  center "ChunksMissingMinMax" w.chunks_missing_min_max ++ " " ++
  center "ChunksMissingNullCount" w.chunks_missing_null_count ++ " " ++ "\n"

/-- The row written by `print_table` for one summary (main.cpp:209-217). -/
def table_row (r : Rendering) (w : TableWidths) (v : ColumnSummaryVariant) : String :=
  center v.col.name w.name ++ " " ++
  center (r.TypeToString v.col.physical_type) w.physical_type ++ " " ++
  center (to_string v.col.null_counts) w.nulls ++ " " ++
  center (option_to_string r v.kind v.col.min) w.min ++ " " ++
  center (option_to_string r v.kind v.col.max) w.max ++ " " ++
  center (to_string v.col.chunks) w.chunks ++ " " ++
  center (to_string v.col.chunks_missing_min_max) w.chunks_missing_min_max ++ " " ++
  center (to_string v.col.chunks_missing_null_count) w.chunks_missing_null_count ++ " " ++
  "\n"

/-- The text written to `std::cout` by `print_table` (main.cpp:192-221). -/
def print_table (r : Rendering) (summaries : List ColumnSummaryVariant) : String :=
  let w := compute_widths r summaries
  header_row w ++ String.join (summaries.map (table_row r w)) ++ "\n"

/-- The physical types `make_column_summary_variant` throws for: INT96, UNDEFINED
and every tag that is not an enumerator. -/
def unsupported_type (t : ParquetType) : Bool :=
  decide (t = ParquetType.INT96 ∨ t = ParquetType.UNDEFINED ∨ t < 0 ∨ 8 < t)

/-! ## Statement vocabulary -/

/-- The chunk statistics that contribute min/max bounds to a column of value type
`T`: present, of the matching dynamic type, with `HasMinMax()`. -/
def usable_bounds (k : ValueKind) (l : List (Option Statistics)) : List (TypedStatistics k.T) :=
  l.filterMap fun stats =>
    match typed_cast k stats with
    | some ts => if ts.HasMinMax then some ts else none
    | none => none

/-- The chunk statistics that contribute a null count to a column of value type
`T`: present, of the matching dynamic type, with `HasNullCount()`. -/
def usable_null_counts (k : ValueKind) (l : List (Option Statistics)) :
    List (TypedStatistics k.T) :=
  l.filterMap fun stats =>
    match typed_cast k stats with
    | some ts => if ts.HasNullCount then some ts else none
    | none => none

/-- The update rule of one bound, `if (!cur || cur > x) { cur = x; }`
(main.cpp:60-61 and 65-66). -/
def extend_bound (k : ValueKind) (cur : Option k.T) (x : k.T) : Option k.T :=
  if !cur.isSome || optional_gt k cur x then some x else cur

/-- The types `make_column_summary_variant` builds a summary for. -/
def supported_type (t : ParquetType) : Bool :=
  decide (t ∈ [ParquetType.BOOLEAN, ParquetType.INT32, ParquetType.INT64, ParquetType.FLOAT,
    ParquetType.DOUBLE, ParquetType.BYTE_ARRAY, ParquetType.FIXED_LEN_BYTE_ARRAY])

/-- The statistics pointers of column `c`, one per row group, in file order
(null when the row group has no such chunk). -/
def column_chunks (c : Nat) (row_groups : List RowGroup) : List (Option Statistics) :=
  row_groups.map fun row_group => row_group.getD c none

/-- The body of the inner loop for one chunk: the guard `if (stats)` and the
dispatch to the column's summary. -/
def dispatch (v : ColumnSummaryVariant) (stats : Option Statistics) : ColumnSummaryVariant :=
  match stats with
  | none => v
  | some st => visit_update v (some st)

/-- A chunk has type-matching usable min/max for a column of value type `T`. -/
def has_usable_min_max (k : ValueKind) (stats : Option Statistics) : Bool :=
  match typed_cast k stats with
  | some ts => ts.HasMinMax
  | none => false

/-- A chunk has a type-matching usable null count for a column of value type `T`. -/
def has_usable_null_count (k : ValueKind) (stats : Option Statistics) : Bool :=
  match typed_cast k stats with
  | some ts => ts.HasNullCount
  | none => false

/-- The comparison of a value type is a strict total order. -/
structure StrictTotal (k : ValueKind) : Prop where
  irrefl : ∀ a, value_gt k a a = false
  trans : ∀ a b c, value_gt k a b = true → value_gt k b c = true → value_gt k a c = true
  total : ∀ a b, value_gt k a b = false → value_gt k b a = false → a = b

/-! ## Arithmetic of `wrap64` -/

theorem wrap64_add_left (a b : Int) : wrap64 (wrap64 a + b) = wrap64 (a + b) := by
  unfold wrap64
  omega

theorem wrap64_of_range (x : Int) (h1 : -(2 ^ 63) ≤ x) (h2 : x < 2 ^ 63) : wrap64 x = x := by
  unfold wrap64
  omega

/-! ## One step of `update_with_chunk_stats`, field by field -/

theorem update_chunks (k : ValueKind) (s : ColumnSummary k.T) (stats : Option Statistics) :
    (update_with_chunk_stats k s stats).chunks = wrap64 (s.chunks + 1) := by
  unfold update_with_chunk_stats
  cases typed_cast k stats with
  | none => rfl
  | some ts => cases h1 : ts.HasMinMax <;> cases h2 : ts.HasNullCount <;> simp <;> split_ifs <;> rfl

theorem update_name (k : ValueKind) (s : ColumnSummary k.T) (stats : Option Statistics) :
    (update_with_chunk_stats k s stats).name = s.name ∧
      (update_with_chunk_stats k s stats).physical_type = s.physical_type := by
  unfold update_with_chunk_stats
  cases typed_cast k stats with
  | none => exact ⟨rfl, rfl⟩
  | some ts =>
    cases h1 : ts.HasMinMax <;> cases h2 : ts.HasNullCount <;> simp <;> split_ifs <;>
      exact ⟨rfl, rfl⟩

theorem update_missing_min_max (k : ValueKind) (s : ColumnSummary k.T)
    (stats : Option Statistics) :
    (update_with_chunk_stats k s stats).chunks_missing_min_max =
      match typed_cast k stats with
      | some ts =>
        if ts.HasMinMax then s.chunks_missing_min_max
        else wrap64 (s.chunks_missing_min_max + 1)
      | none => wrap64 (s.chunks_missing_min_max + 1) := by
  unfold update_with_chunk_stats
  cases typed_cast k stats with
  | none => rfl
  | some ts => cases h1 : ts.HasMinMax <;> cases h2 : ts.HasNullCount <;> simp <;> split_ifs <;> rfl

theorem update_missing_null_count (k : ValueKind) (s : ColumnSummary k.T)
    (stats : Option Statistics) :
    (update_with_chunk_stats k s stats).chunks_missing_null_count =
      match typed_cast k stats with
      | some ts =>
        if ts.HasNullCount then s.chunks_missing_null_count
        else wrap64 (s.chunks_missing_null_count + 1)
      | none => wrap64 (s.chunks_missing_null_count + 1) := by
  unfold update_with_chunk_stats
  cases typed_cast k stats with
  | none => rfl
  | some ts => cases h1 : ts.HasMinMax <;> cases h2 : ts.HasNullCount <;> simp <;> split_ifs <;> rfl

theorem update_null_counts (k : ValueKind) (s : ColumnSummary k.T)
    (stats : Option Statistics) :
    (update_with_chunk_stats k s stats).null_counts =
      match typed_cast k stats with
      | some ts =>
        if ts.HasNullCount then wrap64 (s.null_counts + ts.null_count) else s.null_counts
      | none => s.null_counts := by
  unfold update_with_chunk_stats
  cases typed_cast k stats with
  | none => rfl
  | some ts => cases h1 : ts.HasMinMax <;> cases h2 : ts.HasNullCount <;> simp <;> split_ifs <;> rfl

theorem update_min (k : ValueKind) (s : ColumnSummary k.T) (stats : Option Statistics) :
    (update_with_chunk_stats k s stats).min =
      match typed_cast k stats with
      | some ts => if ts.HasMinMax then extend_bound k s.min ts.min else s.min
      | none => s.min := by
  unfold update_with_chunk_stats extend_bound
  cases typed_cast k stats with
  | none => rfl
  | some ts => cases h1 : ts.HasMinMax <;> cases h2 : ts.HasNullCount <;> simp <;> split_ifs <;> rfl

theorem update_max (k : ValueKind) (s : ColumnSummary k.T) (stats : Option Statistics) :
    (update_with_chunk_stats k s stats).max =
      match typed_cast k stats with
      | some ts => if ts.HasMinMax then extend_bound k s.max ts.max else s.max
      | none => s.max := by
  unfold update_with_chunk_stats extend_bound
  cases typed_cast k stats with
  | none => rfl
  | some ts => cases h1 : ts.HasMinMax <;> cases h2 : ts.HasNullCount <;> simp <;> split_ifs <;> rfl

/-! ## Folding a sequence of chunks, field by field -/

theorem wrap64_idem (x : Int) : wrap64 (wrap64 x) = wrap64 x := by
  unfold wrap64
  omega

theorem fold_chunks_cons (k : ValueKind) (s : ColumnSummary k.T) (stats : Option Statistics)
    (l : List (Option Statistics)) :
    fold_chunks k s (stats :: l) = fold_chunks k (update_with_chunk_stats k s stats) l := rfl

theorem usable_bounds_cons (k : ValueKind) (stats : Option Statistics)
    (l : List (Option Statistics)) :
    usable_bounds k (stats :: l) =
      match typed_cast k stats with
      | some ts => if ts.HasMinMax then ts :: usable_bounds k l else usable_bounds k l
      | none => usable_bounds k l := by
  unfold usable_bounds
  rw [List.filterMap_cons]
  cases typed_cast k stats with
  | none => rfl
  | some ts => cases h : ts.HasMinMax <;> simp [h]

theorem usable_null_counts_cons (k : ValueKind) (stats : Option Statistics)
    (l : List (Option Statistics)) :
    usable_null_counts k (stats :: l) =
      match typed_cast k stats with
      | some ts =>
        if ts.HasNullCount then ts :: usable_null_counts k l else usable_null_counts k l
      | none => usable_null_counts k l := by
  unfold usable_null_counts
  rw [List.filterMap_cons]
  cases typed_cast k stats with
  | none => rfl
  | some ts => cases h : ts.HasNullCount <;> simp [h]

theorem usable_bounds_length_le (k : ValueKind) (l : List (Option Statistics)) :
    (usable_bounds k l).length ≤ l.length :=
  List.length_filterMap_le _ l

theorem usable_null_counts_length_le (k : ValueKind) (l : List (Option Statistics)) :
    (usable_null_counts k l).length ≤ l.length :=
  List.length_filterMap_le _ l

theorem fold_chunks_chunks (k : ValueKind) (l : List (Option Statistics)) :
    ∀ s : ColumnSummary k.T, wrap64 s.chunks = s.chunks →
      (fold_chunks k s l).chunks = wrap64 (s.chunks + l.length) := by
  induction l with
  | nil => intro s h; simpa [fold_chunks] using h.symm
  | cons stats l ih =>
    intro s _
    rw [fold_chunks_cons, ih _ (by rw [update_chunks, wrap64_idem]), update_chunks,
      wrap64_add_left]
    congr 1
    simp only [List.length_cons, Nat.cast_add, Nat.cast_one]
    omega

theorem fold_chunks_name (k : ValueKind) (l : List (Option Statistics)) :
    ∀ s : ColumnSummary k.T, (fold_chunks k s l).name = s.name ∧
      (fold_chunks k s l).physical_type = s.physical_type := by
  induction l with
  | nil => intro s; exact ⟨rfl, rfl⟩
  | cons stats l ih =>
    intro s
    rw [fold_chunks_cons]
    exact ⟨(ih _).1.trans (update_name k s stats).1, (ih _).2.trans (update_name k s stats).2⟩

theorem fold_chunks_missing_min_max (k : ValueKind) (l : List (Option Statistics)) :
    ∀ s : ColumnSummary k.T, wrap64 s.chunks_missing_min_max = s.chunks_missing_min_max →
      (fold_chunks k s l).chunks_missing_min_max =
        wrap64 (s.chunks_missing_min_max + (l.length - (usable_bounds k l).length : Int)) := by
  induction l with
  | nil => intro s h; simpa [fold_chunks, usable_bounds] using h.symm
  | cons stats l ih =>
    intro s h
    rw [fold_chunks_cons, ih _ (by
      rw [update_missing_min_max]
      cases typed_cast k stats with
      | none => simp only [wrap64_idem]
      | some ts => cases hm : ts.HasMinMax <;> simp [hm, wrap64_idem, h]),
      update_missing_min_max, usable_bounds_cons]
    cases typed_cast k stats with
    | none =>
      simp only [List.length_cons, Nat.cast_add, Nat.cast_one]
      rw [wrap64_add_left]
      congr 1
      omega
    | some ts =>
      cases hm : ts.HasMinMax
      · simp only [hm, List.length_cons, Nat.cast_add, Nat.cast_one, Bool.false_eq_true,
          if_false]
        rw [wrap64_add_left]
        congr 1
        omega
      · simp only [hm, List.length_cons, Nat.cast_add, Nat.cast_one, if_true]
        congr 1
        omega

theorem fold_chunks_missing_null_count (k : ValueKind) (l : List (Option Statistics)) :
    ∀ s : ColumnSummary k.T,
      wrap64 s.chunks_missing_null_count = s.chunks_missing_null_count →
      (fold_chunks k s l).chunks_missing_null_count =
        wrap64 (s.chunks_missing_null_count +
          (l.length - (usable_null_counts k l).length : Int)) := by
  induction l with
  | nil => intro s h; simpa [fold_chunks, usable_null_counts] using h.symm
  | cons stats l ih =>
    intro s h
    rw [fold_chunks_cons, ih _ (by
      rw [update_missing_null_count]
      cases typed_cast k stats with
      | none => simp only [wrap64_idem]
      | some ts => cases hm : ts.HasNullCount <;> simp [hm, wrap64_idem, h]),
      update_missing_null_count, usable_null_counts_cons]
    cases typed_cast k stats with
    | none =>
      simp only [List.length_cons, Nat.cast_add, Nat.cast_one]
      rw [wrap64_add_left]
      congr 1
      omega
    | some ts =>
      cases hm : ts.HasNullCount
      · simp only [hm, List.length_cons, Nat.cast_add, Nat.cast_one, Bool.false_eq_true,
          if_false]
        rw [wrap64_add_left]
        congr 1
        omega
      · simp only [hm, List.length_cons, Nat.cast_add, Nat.cast_one, if_true]
        congr 1
        omega

theorem fold_chunks_null_counts (k : ValueKind) (l : List (Option Statistics)) :
    ∀ s : ColumnSummary k.T, wrap64 s.null_counts = s.null_counts →
      (fold_chunks k s l).null_counts =
        wrap64 (s.null_counts + ((usable_null_counts k l).map (·.null_count)).sum) := by
  induction l with
  | nil => intro s h; simpa [fold_chunks, usable_null_counts] using h.symm
  | cons stats l ih =>
    intro s h
    rw [fold_chunks_cons, ih _ (by
      rw [update_null_counts]
      cases typed_cast k stats with
      | none => simpa using h
      | some ts => cases hm : ts.HasNullCount <;> simp [hm, wrap64_idem, h]),
      update_null_counts, usable_null_counts_cons]
    cases typed_cast k stats with
    | none => rfl
    | some ts =>
      cases hm : ts.HasNullCount
      · simp [hm]
      · simp only [hm, if_true, List.map_cons, List.sum_cons]
        rw [wrap64_add_left]
        congr 1
        omega

theorem fold_chunks_min (k : ValueKind) (l : List (Option Statistics)) :
    ∀ s : ColumnSummary k.T,
      (fold_chunks k s l).min =
        ((usable_bounds k l).map (·.min)).foldl (extend_bound k) s.min := by
  induction l with
  | nil => intro s; rfl
  | cons stats l ih =>
    intro s
    rw [fold_chunks_cons, ih, update_min, usable_bounds_cons]
    cases typed_cast k stats with
    | none => rfl
    | some ts => cases hm : ts.HasMinMax <;> simp [hm]

theorem fold_chunks_max (k : ValueKind) (l : List (Option Statistics)) :
    ∀ s : ColumnSummary k.T,
      (fold_chunks k s l).max =
        ((usable_bounds k l).map (·.max)).foldl (extend_bound k) s.max := by
  induction l with
  | nil => intro s; rfl
  | cons stats l ih =>
    intro s
    rw [fold_chunks_cons, ih, update_max, usable_bounds_cons]
    cases typed_cast k stats with
    | none => rfl
    | some ts => cases hm : ts.HasMinMax <;> simp [hm]

/-! ## The bound update rule keeps the least value -/

theorem foldl_extend_bound_eq_none (k : ValueKind) (xs : List k.T) :
    ∀ cur : Option k.T, xs.foldl (extend_bound k) cur = none ↔ cur = none ∧ xs = [] := by
  induction xs with
  | nil => intro cur; simp
  | cons x xs ih =>
    intro cur
    rw [List.foldl_cons, ih]
    cases cur with
    | none => simp [extend_bound]
    | some c => cases h : value_gt k c x <;> simp [extend_bound, optional_gt, h]

theorem foldl_extend_bound_least (k : ValueKind) (ord : StrictTotal k) (xs : List k.T) :
    ∀ (cur : Option k.T) (m : k.T), xs.foldl (extend_bound k) cur = some m →
      (cur = some m ∨ m ∈ xs) ∧ (∀ c, cur = some c → value_gt k m c = false) ∧
        ∀ x ∈ xs, value_gt k m x = false := by
  induction xs with
  | nil =>
    intro cur m h
    simp only [List.foldl_nil] at h
    refine ⟨Or.inl h, ?_, by simp⟩
    intro c hc
    rw [h] at hc
    cases hc
    exact ord.irrefl m
  | cons x xs ih =>
    intro cur m h
    rw [List.foldl_cons] at h
    obtain ⟨hmem, hcur, hall⟩ := ih _ m h
    cases cur with
    | none =>
      have hx : extend_bound k none x = some x := by simp [extend_bound]
      rw [hx] at hmem hcur
      refine ⟨Or.inr ?_, by simp, ?_⟩
      · rcases hmem with hm | hm
        · cases hm; exact List.mem_cons_self _ _
        · exact List.mem_cons_of_mem _ hm
      · intro y hy
        rcases List.mem_cons.1 hy with rfl | hy
        · exact hcur _ rfl
        · exact hall y hy
    | some c0 =>
      cases hgt : value_gt k c0 x with
      | true =>
        have hx : extend_bound k (some c0) x = some x := by
          simp [extend_bound, optional_gt, hgt]
        rw [hx] at hmem hcur
        have hmx : value_gt k m x = false := hcur _ rfl
        refine ⟨Or.inr ?_, ?_, ?_⟩
        · rcases hmem with hm | hm
          · cases hm; exact List.mem_cons_self _ _
          · exact List.mem_cons_of_mem _ hm
        · intro c hc
          cases hc
          cases hmc : value_gt k m c0 with
          | false => rfl
          | true => rw [ord.trans _ _ _ hmc hgt] at hmx; cases hmx
        · intro y hy
          rcases List.mem_cons.1 hy with rfl | hy
          · exact hmx
          · exact hall y hy
      | false =>
        have hx : extend_bound k (some c0) x = some c0 := by
          simp [extend_bound, optional_gt, hgt]
        rw [hx] at hmem hcur
        have hmc : value_gt k m c0 = false := hcur _ rfl
        refine ⟨?_, ?_, ?_⟩
        · rcases hmem with hm | hm
          · exact Or.inl hm
          · exact Or.inr (List.mem_cons_of_mem _ hm)
        · intro c hc
          cases hc
          exact hmc
        · intro y hy
          rcases List.mem_cons.1 hy with rfl | hy
          · cases hmy : value_gt k m y with
            | false => rfl
            | true =>
              cases hcm : value_gt k c0 m with
              | false =>
                have : m = c0 := ord.total _ _ hmc hcm
                rw [this, hgt] at hmy
                cases hmy
              | true => rw [ord.trans _ _ _ hcm hmy] at hgt; cases hgt
          · exact hall y hy

theorem foldl_extend_bound_perm (k : ValueKind) (ord : StrictTotal k) (xs ys : List k.T)
    (h : xs.Perm ys) :
    xs.foldl (extend_bound k) none = ys.foldl (extend_bound k) none := by
  cases hx : xs.foldl (extend_bound k) none with
  | none =>
    have hnil := ((foldl_extend_bound_eq_none k xs none).1 hx).2
    rw [hnil] at h
    cases h.nil_eq
    rfl
  | some m =>
    cases hy : ys.foldl (extend_bound k) none with
    | none =>
      have hnil := ((foldl_extend_bound_eq_none k ys none).1 hy).2
      rw [hnil] at h
      rw [h.eq_nil] at hx
      cases hx
    | some n =>
      obtain ⟨hm, -, hmall⟩ := foldl_extend_bound_least k ord xs none m hx
      obtain ⟨hn, -, hnall⟩ := foldl_extend_bound_least k ord ys none n hy
      have hm1 : m ∈ xs := by simpa using hm
      have hn1 : n ∈ ys := by simpa using hn
      have e : m = n := ord.total _ _ (hmall n (h.mem_iff.2 hn1)) (hnall m (h.mem_iff.1 hm1))
      rw [e]

/-! ## The comparisons of `bool`, `int32_t`, `int64_t` and `std::string` -/

theorem strictTotal_bool : StrictTotal .bool where
  irrefl := by intro a; cases a <;> rfl
  trans := by intro a b c; cases a <;> cases b <;> cases c <;> simp [value_gt]
  total := by intro a b; cases a <;> cases b <;> simp [value_gt]

theorem strictTotal_int32 : StrictTotal .int32 where
  irrefl := by intro a; simp [value_gt]
  trans := by
    intro a b c h1 h2
    simp only [value_gt, decide_eq_true_eq] at *
    exact lt_trans h2 h1
  total := by
    intro a b h1 h2
    simp only [value_gt, decide_eq_false_iff_not, not_lt] at *
    exact le_antisymm h1 h2

theorem strictTotal_int64 : StrictTotal .int64 where
  irrefl := by intro a; simp [value_gt]
  trans := by
    intro a b c h1 h2
    simp only [value_gt, decide_eq_true_eq] at *
    exact lt_trans h2 h1
  total := by
    intro a b h1 h2
    simp only [value_gt, decide_eq_false_iff_not, not_lt] at *
    exact le_antisymm h1 h2

theorem string_compare_self (a : List Byte) : string_compare a a = 0 := by
  induction a with
  | nil => rfl
  | cons x xs ih => simp [string_compare, ih]

theorem string_compare_antisymm :
    ∀ a b : List Byte, string_compare a b ≤ 0 → string_compare b a ≤ 0 → a = b
  | [], [] => fun _ _ => rfl
  | [], _ :: _ => by simp [string_compare]
  | _ :: _, [] => by simp [string_compare]
  | x :: xs, y :: ys => by
    intro h1 h2
    simp only [string_compare] at h1 h2
    rcases lt_trichotomy x y with hxy | hxy | hxy
    · simp [hxy, not_lt_of_lt hxy] at h2
    · subst hxy
      simp only [lt_self_iff_false, if_false] at h1 h2
      rw [string_compare_antisymm xs ys h1 h2]
    · simp [hxy, not_lt_of_lt hxy] at h1

theorem string_compare_trans :
    ∀ a b c : List Byte, 0 < string_compare a b → 0 < string_compare b c →
      0 < string_compare a c
  | [], [], _ => by simp [string_compare]
  | [], _ :: _, _ => by simp [string_compare]
  | _ :: _, [], [] => by simp [string_compare]
  | _ :: _, [], _ :: _ => by simp [string_compare]
  | _ :: _, _ :: _, [] => by simp [string_compare]
  | x :: xs, y :: ys, z :: zs => by
    intro h1 h2
    simp only [string_compare] at h1 h2 ⊢
    rcases lt_trichotomy x y with hxy | hxy | hxy
    · simp [hxy] at h1
    · subst hxy
      simp only [lt_self_iff_false, if_false] at h1
      rcases lt_trichotomy x z with hxz | hxz | hxz
      · simp [hxz] at h2
      · subst hxz
        simp only [lt_self_iff_false, if_false] at h2 ⊢
        exact string_compare_trans xs ys zs h1 h2
      · simp [hxz, not_lt_of_lt hxz]
    · rcases lt_trichotomy y z with hyz | hyz | hyz
      · simp [hyz] at h2
      · subst hyz
        simp [hxy, not_lt_of_lt hxy]
      · have hxz : z < x := lt_trans hyz hxy
        simp [hxz, not_lt_of_lt hxz]

theorem strictTotal_string : StrictTotal .string where
  irrefl := by intro a; simp [value_gt, string_gt, string_compare_self]
  trans := by
    intro a b c h1 h2
    simp only [value_gt, string_gt, decide_eq_true_eq] at *
    exact string_compare_trans a b c h1 h2
  total := by
    intro a b h1 h2
    simp only [value_gt, string_gt, decide_eq_false_iff_not, not_lt] at *
    exact string_compare_antisymm a b h1 h2

/-- The comparison `a > b` of `std::string` is the lexicographic order of the byte
lists: `b` comes before `a`. -/
theorem string_gt_iff_lex :
    ∀ a b : List Byte, string_gt a b = true ↔ List.Lex (· < ·) b a
  | [], [] => by simp [string_gt, string_compare]
  | [], _ :: _ => by simp [string_gt, string_compare]
  | _ :: _, [] => by simp [string_gt, string_compare, List.Lex.nil]
  | x :: xs, y :: ys => by
    have ih := string_gt_iff_lex xs ys
    simp only [string_gt, decide_eq_true_eq] at ih ⊢
    simp only [string_compare]
    rcases lt_trichotomy x y with hxy | hxy | hxy
    · simp only [hxy, if_true]
      constructor
      · intro h; omega
      · intro h
        cases h with
        | cons h => exact absurd hxy (lt_irrefl _)
        | rel h => exact absurd hxy (not_lt_of_lt h)
    · subst hxy
      simp only [lt_self_iff_false, if_false]
      rw [ih]
      exact List.Lex.cons_iff.symm
    · simp only [hxy, not_lt_of_lt hxy, if_true, if_false]
      constructor
      · intro _; exact List.Lex.rel hxy
      · intro _; omega

/-! ## The aggregation loops, column by column -/

theorem typed_cast_none (k : ValueKind) : typed_cast k none = none := by
  cases k <;> rfl

theorem column_loop_append (chunks : List (Option Statistics)) :
    ∀ pre post : List ColumnSummaryVariant, post.length = chunks.length →
      column_loop pre.length chunks (pre ++ post) =
        some (pre ++ List.zipWith dispatch post chunks) := by
  induction chunks with
  | nil =>
    intro pre post h
    cases post with
    | nil => simp [column_loop]
    | cons p post => simp at h
  | cons stats rest ih =>
    intro pre post h
    cases post with
    | nil => simp at h
    | cons p post =>
      have hlen : post.length = rest.length := by simpa using h
      cases stats with
      | none =>
        have := ih (pre ++ [p]) post hlen
        simp only [List.length_append, List.length_singleton, List.append_assoc,
          List.singleton_append] at this
        simp only [column_loop, List.zipWith_cons_cons, dispatch]
        exact this
      | some st =>
        have := ih (pre ++ [visit_update p (some st)]) post hlen
        simp only [List.length_append, List.length_singleton, List.append_assoc,
          List.singleton_append] at this
        simp only [column_loop, List.zipWith_cons_cons, dispatch, List.get?_eq_getElem?]
        rw [List.getElem?_append_right (le_refl _)]
        simp only [Nat.sub_self, List.getElem?_cons_zero]
        rw [List.set_append_right _ _ (le_refl _)]
        simp only [Nat.sub_self, List.set_cons_zero]
        exact this

theorem column_loop_zero (row_group : RowGroup) (summaries : List ColumnSummaryVariant)
    (h : row_group.length = summaries.length) :
    column_loop 0 row_group summaries = some (List.zipWith dispatch summaries row_group) := by
  simpa using column_loop_append row_group [] summaries h.symm

theorem dispatch_eq (v : ColumnSummaryVariant) (stats : Option Statistics)
    (l : List (Option Statistics)) :
    (⟨(dispatch v stats).kind,
        fold_chunks (dispatch v stats).kind (dispatch v stats).col (l.filter Option.isSome)⟩ :
      ColumnSummaryVariant) =
      ⟨v.kind, fold_chunks v.kind v.col ((stats :: l).filter Option.isSome)⟩ := by
  cases stats with
  | none => rfl
  | some st => rfl

theorem row_group_loop_spec (row_groups : List RowGroup) :
    ∀ summaries : List ColumnSummaryVariant,
      (∀ rg ∈ row_groups, rg.length = summaries.length) →
      ∃ result, row_group_loop row_groups summaries = some result ∧
        result.length = summaries.length ∧
        ∀ (c : Nat) (v : ColumnSummaryVariant), summaries[c]? = some v →
          result[c]? = some (⟨v.kind,
            fold_chunks v.kind v.col ((column_chunks c row_groups).filter Option.isSome)⟩ :
              ColumnSummaryVariant) := by
  induction row_groups with
  | nil =>
    intro summaries _
    exact ⟨summaries, rfl, rfl, fun c v h => by simpa [column_chunks, fold_chunks] using h⟩
  | cons rg rest ih =>
    intro summaries h
    have hrg : rg.length = summaries.length := h rg (List.mem_cons_self _ _)
    have hz : (List.zipWith dispatch summaries rg).length = summaries.length := by
      simp [hrg]
    obtain ⟨result, hres, hlen, hcol⟩ := ih (List.zipWith dispatch summaries rg) (by
      intro rg1 h1
      rw [hz]
      exact h rg1 (List.mem_cons_of_mem _ h1))
    refine ⟨result, ?_, hlen.trans hz, ?_⟩
    · simp only [row_group_loop, column_loop_zero rg summaries hrg]
      exact hres
    · intro c v hv
      have hc : c < summaries.length := by
        rcases Nat.lt_or_ge c summaries.length with h1 | h1
        · exact h1
        · rw [List.getElem?_eq_none h1] at hv
          cases hv
      have hc1 : c < rg.length := by omega
      have hget : (List.zipWith dispatch summaries rg)[c]? = some (dispatch v (rg.getD c none)) := by
        rw [List.getElem?_zipWith, hv, List.getElem?_eq_getElem hc1]
        simp [List.getD_eq_getElem?_getD, List.getElem?_eq_getElem hc1]
      rw [hcol c _ hget, dispatch_eq]
      rfl

theorem make_supported (col : ColumnDescriptor) (h : supported_type col.physical_type = true) :
    ∃ k, make_column_summary_variant col = .ok ⟨k, fresh k col.name col.physical_type⟩ := by
  simp only [supported_type, decide_eq_true_eq, List.mem_cons, List.mem_singleton,
    List.not_mem_nil, or_false] at h
  rcases h with h | h | h | h | h | h | h
  · exact ⟨.bool, by simp [make_column_summary_variant, h]⟩
  · exact ⟨.int32, by simp [make_column_summary_variant, h]⟩
  · exact ⟨.int64, by simp [make_column_summary_variant, h]⟩
  · exact ⟨.float, by simp [make_column_summary_variant, h]⟩
  · exact ⟨.double, by simp [make_column_summary_variant, h]⟩
  · exact ⟨.string, by simp [make_column_summary_variant, h]⟩
  · exact ⟨.string, by simp [make_column_summary_variant, h]⟩

theorem build_summaries_spec (schema : List ColumnDescriptor) :
    (∀ col ∈ schema, supported_type col.physical_type = true) →
    ∃ summaries, build_summaries schema = .ok summaries ∧
      summaries.length = schema.length ∧
      ∀ (c : Nat) (v : ColumnSummaryVariant), summaries[c]? = some v →
        ∃ col, schema[c]? = some col ∧
          v = (⟨v.kind, fresh v.kind col.name col.physical_type⟩ : ColumnSummaryVariant) := by
  induction schema with
  | nil =>
    intro _
    exact ⟨[], rfl, rfl, by simp⟩
  | cons col rest ih =>
    intro h
    obtain ⟨k, hk⟩ := make_supported col (h col (List.mem_cons_self _ _))
    obtain ⟨summaries, hs, hlen, hcol⟩ := ih (fun c hc => h c (List.mem_cons_of_mem _ hc))
    refine ⟨⟨k, fresh k col.name col.physical_type⟩ :: summaries, ?_, by simp [hlen], ?_⟩
    · simp only [build_summaries, hk, hs]
    · intro c v hv
      cases c with
      | zero =>
        simp only [List.getElem?_cons_zero, Option.some.injEq] at hv
        subst hv
        exact ⟨col, by simp, rfl⟩
      | succ c =>
        simp only [List.getElem?_cons_succ] at hv
        obtain ⟨col1, h1, h2⟩ := hcol c v hv
        exact ⟨col1, by simpa using h1, h2⟩

theorem aggregate_spec (schema : List ColumnDescriptor) (row_groups : List RowGroup)
    (hs : ∀ col ∈ schema, supported_type col.physical_type = true)
    (hrg : ∀ rg ∈ row_groups, rg.length = schema.length) :
    ∃ result, aggregate schema row_groups = .ok (some result) ∧
      result.length = schema.length ∧
      ∀ (c : Nat) (v : ColumnSummaryVariant), result[c]? = some v →
        ∃ col, schema[c]? = some col ∧
          v.col = fold_chunks v.kind (fresh v.kind col.name col.physical_type)
            ((column_chunks c row_groups).filter Option.isSome) := by
  obtain ⟨summaries, hb, hlen, hcol⟩ := build_summaries_spec schema hs
  obtain ⟨result, hres, hlen1, hfold⟩ := row_group_loop_spec row_groups summaries (by
    intro rg h
    rw [hlen]
    exact hrg rg h)
  refine ⟨result, by simp only [aggregate, hb, hres], hlen1.trans hlen, ?_⟩
  intro c v hv
  have hc : c < summaries.length := by
    rcases Nat.lt_or_ge c result.length with h1 | h1
    · omega
    · rw [List.getElem?_eq_none h1] at hv
      cases hv
  obtain ⟨col, h1, h2⟩ := hcol c summaries[c] (List.getElem?_eq_getElem hc)
  have h3 := hfold c summaries[c] (List.getElem?_eq_getElem hc)
  rw [hv, Option.some.injEq] at h3
  refine ⟨col, h1, ?_⟩
  subst h3
  simp only
  rw [h2]

/-! ## Counting the chunks that miss a statistic -/

theorem missing_min_max_count (k : ValueKind) (l : List (Option Statistics)) :
    ((l.filter Option.isSome).length : Int) - (usable_bounds k (l.filter Option.isSome)).length =
      (l.filter fun st => st.isSome && !has_usable_min_max k st).length := by
  induction l with
  | nil => rfl
  | cons stats l ih =>
    cases stats with
    | none => simpa [List.filter_cons] using ih
    | some st =>
      have hu : has_usable_min_max k (some st) =
          match typed_cast k (some st) with
          | some ts => ts.HasMinMax
          | none => false := rfl
      simp only [List.filter_cons, Option.isSome_some, if_true, Bool.true_and,
        usable_bounds_cons, hu]
      cases typed_cast k (some st) with
      | none =>
        simp only [Bool.not_false, if_true, List.length_cons, Nat.cast_add, Nat.cast_one]
        omega
      | some ts =>
        cases hm : ts.HasMinMax
        · simp only [hm, Bool.false_eq_true, if_false, Bool.not_false, if_true,
            List.length_cons, Nat.cast_add, Nat.cast_one]
          omega
        · simp only [hm, if_true, Bool.not_true, Bool.false_eq_true, if_false,
            List.length_cons, Nat.cast_add, Nat.cast_one]
          omega

theorem missing_null_count_count (k : ValueKind) (l : List (Option Statistics)) :
    ((l.filter Option.isSome).length : Int) -
        (usable_null_counts k (l.filter Option.isSome)).length =
      (l.filter fun st => st.isSome && !has_usable_null_count k st).length := by
  induction l with
  | nil => rfl
  | cons stats l ih =>
    cases stats with
    | none => simpa [List.filter_cons] using ih
    | some st =>
      have hu : has_usable_null_count k (some st) =
          match typed_cast k (some st) with
          | some ts => ts.HasNullCount
          | none => false := rfl
      simp only [List.filter_cons, Option.isSome_some, if_true, Bool.true_and,
        usable_null_counts_cons, hu]
      cases typed_cast k (some st) with
      | none =>
        simp only [Bool.not_false, if_true, List.length_cons, Nat.cast_add, Nat.cast_one]
        omega
      | some ts =>
        cases hm : ts.HasNullCount
        · simp only [hm, Bool.false_eq_true, if_false, Bool.not_false, if_true,
            List.length_cons, Nat.cast_add, Nat.cast_one]
          omega
        · simp only [hm, if_true, Bool.not_true, Bool.false_eq_true, if_false,
            List.length_cons, Nat.cast_add, Nat.cast_one]
          omega

theorem column_chunks_length (c : Nat) (row_groups : List RowGroup) :
    (column_chunks c row_groups).length = row_groups.length := by
  simp [column_chunks]

theorem fresh_counters (k : ValueKind) (name : String) (t : ParquetType) :
    wrap64 (fresh k name t).chunks = (fresh k name t).chunks ∧
      wrap64 (fresh k name t).chunks_missing_min_max = (fresh k name t).chunks_missing_min_max ∧
      wrap64 (fresh k name t).chunks_missing_null_count =
        (fresh k name t).chunks_missing_null_count ∧
      wrap64 (fresh k name t).null_counts = (fresh k name t).null_counts := by
  simp [fresh, wrap64]

/-! ## Claims -/

/-- C1 (as stated, refuted): a boolean column with one row group whose chunk has no
statistics object ends with `chunks = 0`, not with the number of row groups. -/
theorem chunks_differs_from_row_group_count :
    ∃ v, aggregate [⟨"flag", ParquetType.BOOLEAN⟩] [[none]] = .ok (some [v]) ∧
      v.col.chunks = 0 ∧ v.col.chunks ≠ (([[none]] : List RowGroup).length : Int) :=
  ⟨_, rfl, rfl, by decide⟩

/-- C1 (amended): for every schema of supported column types and every list of row
groups that each hold one chunk per schema column, the aggregation succeeds with
one summary per column, and every column's final `chunks` equals the number of
row groups whose chunk for that column carries a statistics object (the guard
`if (stats)` of the driver skips the others). -/
theorem chunks_eq_dispatched_count (schema : List ColumnDescriptor)
    (row_groups : List RowGroup)
    (hs : ∀ col ∈ schema, supported_type col.physical_type = true)
    (hrg : ∀ rg ∈ row_groups, rg.length = schema.length)
    (hlen : (row_groups.length : Int) ≤ INT64_MAX) :
    ∃ result, aggregate schema row_groups = .ok (some result) ∧
      result.length = schema.length ∧
      ∀ (c : Nat) (v : ColumnSummaryVariant), result[c]? = some v →
        v.col.chunks = (((column_chunks c row_groups).filter Option.isSome).length : Int) := by
  obtain ⟨result, h1, h2, h3⟩ := aggregate_spec schema row_groups hs hrg
  refine ⟨result, h1, h2, fun c v hv => ?_⟩
  obtain ⟨col, -, hcol⟩ := h3 c v hv
  rw [hcol, fold_chunks_chunks _ _ _ (fresh_counters _ _ _).1]
  have hle := List.length_filter_le Option.isSome (column_chunks c row_groups)
  rw [column_chunks_length] at hle
  simp only [INT64_MAX] at hlen
  have h0 : (fresh v.kind col.name col.physical_type).chunks = 0 := rfl
  rw [h0, zero_add]
  apply wrap64_of_range <;> omega

/-- C1 (amended), instance: two columns, three row groups, statistics objects
missing in some chunks. -/
theorem chunks_eq_dispatched_count_witness :
    ∃ result,
      aggregate [⟨"flag", ParquetType.BOOLEAN⟩, ⟨"n", ParquetType.INT32⟩]
          [[some (.boolean ⟨true, false, true, true, 2⟩), none],
            [none, some (.int32 ⟨false, 0, 0, false, 0⟩)],
            [none, some (.float ⟨true, 0, 0, true, 1⟩)]] = .ok (some result) ∧
        result.length = 2 ∧
        ∀ (c : Nat) (v : ColumnSummaryVariant), result[c]? = some v →
          v.col.chunks = (((column_chunks c
            [[some (.boolean ⟨true, false, true, true, 2⟩), none],
              [none, some (.int32 ⟨false, 0, 0, false, 0⟩)],
              [none, some (.float ⟨true, 0, 0, true, 1⟩)]]).filter Option.isSome).length : Int) :=
  chunks_eq_dispatched_count _ _ (by decide) (by decide) (by decide)

/-- C2 (code evaluated at the failing input): an int32 column folded with chunks
whose bounds are (1, 5) and (2, 3) ends with `max = 3`, although the greatest
chunk max is 5; the update of `max` at main.cpp:66 tests `max > chunk_max`. -/
theorem max_is_not_greatest_chunk_max :
    (fold_chunks .int32 (fresh .int32 "n" ParquetType.INT32)
        [some (.int32 ⟨true, 1, 5, true, 0⟩), some (.int32 ⟨true, 2, 3, true, 0⟩)]).max =
      some (3 : Int) ∧
    ((usable_bounds .int32
        [some (.int32 ⟨true, 1, 5, true, 0⟩), some (.int32 ⟨true, 2, 3, true, 0⟩)]).map
          (·.max)) = [(5 : Int), 3] := by
  decide

/-- The `min` of a folded fresh summary, for a totally ordered value type: absent
exactly when no chunk contributes bounds, otherwise a contributed chunk min that
no contributed chunk min is below. -/
theorem fold_min_least (k : ValueKind) (ord : StrictTotal k) (name : String) (t : ParquetType)
    (l : List (Option Statistics)) :
    ((fold_chunks k (fresh k name t) l).min = none ↔ usable_bounds k l = []) ∧
      ∀ m, (fold_chunks k (fresh k name t) l).min = some m →
        m ∈ (usable_bounds k l).map (·.min) ∧
          ∀ x ∈ (usable_bounds k l).map (·.min), value_gt k m x = false := by
  rw [fold_chunks_min]
  have h0 : (fresh k name t).min = none := rfl
  rw [h0]
  constructor
  · rw [foldl_extend_bound_eq_none]
    simp
  · intro m hm
    obtain ⟨h1, -, h3⟩ := foldl_extend_bound_least k ord _ none m hm
    exact ⟨by simpa using h1, h3⟩

theorem bool_le_of_not_gt (a b : Bool) (h : value_gt .bool a b = false) : a ≤ b := by
  cases a <;> cases b <;> simp_all [value_gt]

theorem int32_le_of_not_gt (a b : Int) (h : value_gt .int32 a b = false) : a ≤ b := by
  simpa [value_gt] using h

theorem int64_le_of_not_gt (a b : Int) (h : value_gt .int64 a b = false) : a ≤ b := by
  simpa [value_gt] using h

/-- C3: for a bool, int32 or int64 column, the `min` of a freshly made summary
after folding any sequence of chunk statistics is absent exactly when no chunk
had type-matching usable min/max, and otherwise is one of the chunk min values
of those chunks and is less than or equal to each of them (their least). -/
theorem min_is_least_chunk_min (name : String) (t : ParquetType)
    (l : List (Option Statistics)) :
    (((fold_chunks .bool (fresh .bool name t) l).min = none ↔ usable_bounds .bool l = []) ∧
      ∀ m : Bool, (fold_chunks .bool (fresh .bool name t) l).min = some m →
        m ∈ (usable_bounds .bool l).map (·.min) ∧
          ∀ x ∈ (usable_bounds .bool l).map (·.min), m ≤ x) ∧
    (((fold_chunks .int32 (fresh .int32 name t) l).min = none ↔
        usable_bounds .int32 l = []) ∧
      ∀ m : Int, (fold_chunks .int32 (fresh .int32 name t) l).min = some m →
        m ∈ (usable_bounds .int32 l).map (·.min) ∧
          ∀ x ∈ (usable_bounds .int32 l).map (·.min), m ≤ x) ∧
    (((fold_chunks .int64 (fresh .int64 name t) l).min = none ↔
        usable_bounds .int64 l = []) ∧
      ∀ m : Int, (fold_chunks .int64 (fresh .int64 name t) l).min = some m →
        m ∈ (usable_bounds .int64 l).map (·.min) ∧
          ∀ x ∈ (usable_bounds .int64 l).map (·.min), m ≤ x) := by
  refine ⟨⟨(fold_min_least .bool strictTotal_bool name t l).1, fun m hm => ?_⟩,
    ⟨(fold_min_least .int32 strictTotal_int32 name t l).1, fun m hm => ?_⟩,
    ⟨(fold_min_least .int64 strictTotal_int64 name t l).1, fun m hm => ?_⟩⟩
  · obtain ⟨h1, h2⟩ := (fold_min_least .bool strictTotal_bool name t l).2 m hm
    exact ⟨h1, fun x hx => bool_le_of_not_gt m x (h2 x hx)⟩
  · obtain ⟨h1, h2⟩ := (fold_min_least .int32 strictTotal_int32 name t l).2 m hm
    exact ⟨h1, fun x hx => int32_le_of_not_gt m x (h2 x hx)⟩
  · obtain ⟨h1, h2⟩ := (fold_min_least .int64 strictTotal_int64 name t l).2 m hm
    exact ⟨h1, fun x hx => int64_le_of_not_gt m x (h2 x hx)⟩

/-- C3, instance: an int32 column folded with an absent statistics object, a
chunk with bounds (4, 9), one of another type, one with bounds (-2, 7) and one
without usable bounds ends with `min = -2`. -/
theorem min_is_least_chunk_min_witness :
    (-2 : Int) ∈ (usable_bounds .int32
        [none, some (.int32 ⟨true, 4, 9, true, 0⟩), some (.int64 ⟨true, -5, 0, true, 0⟩),
          some (.int32 ⟨true, -2, 7, false, 0⟩),
          some (.int32 ⟨false, -9, 0, true, 0⟩)]).map (·.min) ∧
      ∀ x ∈ (usable_bounds .int32
        [none, some (.int32 ⟨true, 4, 9, true, 0⟩), some (.int64 ⟨true, -5, 0, true, 0⟩),
          some (.int32 ⟨true, -2, 7, false, 0⟩),
          some (.int32 ⟨false, -9, 0, true, 0⟩)]).map (·.min), (-2 : Int) ≤ x :=
  (min_is_least_chunk_min "n" ParquetType.INT32 _).2.1.2 (-2) (by decide)

/-- C4 (as stated, refuted): the scenario of the specification.  A boolean column
with two row groups, the first chunk reporting min=false, max=true, nulls=2 and
the second without a statistics object, ends with `chunks = 1` and both missing
counters at 0: the second chunk is never dispatched. -/
theorem absent_statistics_not_counted_missing :
    ∃ s : ColumnSummary Bool,
      aggregate [⟨"flag", ParquetType.BOOLEAN⟩]
          [[some (.boolean ⟨true, false, true, true, 2⟩)], [none]] =
        .ok (some [⟨.bool, s⟩]) ∧
      s.min = some false ∧ s.max = some true ∧ s.null_counts = 2 ∧ s.chunks = 1 ∧
      s.chunks_missing_min_max = 0 ∧ s.chunks_missing_null_count = 0 :=
  ⟨_, rfl, rfl, rfl, rfl, rfl, rfl, rfl⟩

/-- C4 (amended): for every schema of supported column types and every list of row
groups that each hold one chunk per schema column, every column's final
`chunks_missing_min_max` equals the number of row groups whose chunk for that
column carries a statistics object without type-matching usable min/max, and its
final `chunks_missing_null_count` the number whose statistics object is present
without a type-matching usable null count; chunks without a statistics object
are not dispatched and are counted by neither. -/
theorem missing_counters_count_dispatched (schema : List ColumnDescriptor)
    (row_groups : List RowGroup)
    (hs : ∀ col ∈ schema, supported_type col.physical_type = true)
    (hrg : ∀ rg ∈ row_groups, rg.length = schema.length)
    (hlen : (row_groups.length : Int) ≤ INT64_MAX) :
    ∃ result, aggregate schema row_groups = .ok (some result) ∧
      result.length = schema.length ∧
      ∀ (c : Nat) (v : ColumnSummaryVariant), result[c]? = some v →
        v.col.chunks_missing_min_max =
          (((column_chunks c row_groups).filter
            fun st => st.isSome && !has_usable_min_max v.kind st).length : Int) ∧
        v.col.chunks_missing_null_count =
          (((column_chunks c row_groups).filter
            fun st => st.isSome && !has_usable_null_count v.kind st).length : Int) := by
  obtain ⟨result, h1, h2, h3⟩ := aggregate_spec schema row_groups hs hrg
  refine ⟨result, h1, h2, fun c v hv => ?_⟩
  obtain ⟨col, -, hcol⟩ := h3 c v hv
  simp only [INT64_MAX] at hlen
  have hmm := List.length_filter_le (fun st => st.isSome && !has_usable_min_max v.kind st)
    (column_chunks c row_groups)
  have hnc := List.length_filter_le (fun st => st.isSome && !has_usable_null_count v.kind st)
    (column_chunks c row_groups)
  rw [column_chunks_length] at hmm hnc
  constructor
  · rw [hcol, fold_chunks_missing_min_max _ _ _ (fresh_counters _ _ _).2.1,
      missing_min_max_count]
    have h0 : (fresh v.kind col.name col.physical_type).chunks_missing_min_max = 0 := rfl
    rw [h0, zero_add]
    apply wrap64_of_range <;> omega
  · rw [hcol, fold_chunks_missing_null_count _ _ _ (fresh_counters _ _ _).2.2.1,
      missing_null_count_count]
    have h0 : (fresh v.kind col.name col.physical_type).chunks_missing_null_count = 0 := rfl
    rw [h0, zero_add]
    apply wrap64_of_range <;> omega

/-- C4 (amended), instance: the boolean column of the scenario followed by an int32
column whose chunks carry statistics objects without usable fields. -/
theorem missing_counters_count_dispatched_witness :
    ∃ result,
      aggregate [⟨"flag", ParquetType.BOOLEAN⟩, ⟨"n", ParquetType.INT32⟩]
          [[some (.boolean ⟨true, false, true, true, 2⟩), some (.int32 ⟨false, 0, 0, true, 4⟩)],
            [none, some (.int32 ⟨true, 1, 2, false, 0⟩)]] = .ok (some result) ∧
        result.length = 2 ∧
        ∀ (c : Nat) (v : ColumnSummaryVariant), result[c]? = some v →
          v.col.chunks_missing_min_max =
            (((column_chunks c
              [[some (.boolean ⟨true, false, true, true, 2⟩),
                  some (.int32 ⟨false, 0, 0, true, 4⟩)],
                [none, some (.int32 ⟨true, 1, 2, false, 0⟩)]]).filter
              fun st => st.isSome && !has_usable_min_max v.kind st).length : Int) ∧
          v.col.chunks_missing_null_count =
            (((column_chunks c
              [[some (.boolean ⟨true, false, true, true, 2⟩),
                  some (.int32 ⟨false, 0, 0, true, 4⟩)],
                [none, some (.int32 ⟨true, 1, 2, false, 0⟩)]]).filter
              fun st => st.isSome && !has_usable_null_count v.kind st).length : Int) :=
  missing_counters_count_dispatched _ _ (by decide) (by decide) (by decide)

/-- C5 (code evaluated at the failing input): the summary made for a
FIXED_LEN_BYTE_ARRAY column is a `ColumnSummary<std::string>`, whose update casts
to `TypedStatistics<ByteArrayType>`; a statistics object of the column's own
type (`FLBAType`) with usable min/max and null count is treated as missing. -/
theorem fixed_len_byte_array_statistics_ignored :
    ∃ s : ColumnSummary (List Byte),
      make_column_summary_variant ⟨"id", ParquetType.FIXED_LEN_BYTE_ARRAY⟩ =
        .ok ⟨.string, s⟩ ∧
      (update_with_chunk_stats .string s
        (some (.flba ⟨true, [1, 2], [3, 4], true, 5⟩))).min = none ∧
      (update_with_chunk_stats .string s
        (some (.flba ⟨true, [1, 2], [3, 4], true, 5⟩))).max = none ∧
      (update_with_chunk_stats .string s
        (some (.flba ⟨true, [1, 2], [3, 4], true, 5⟩))).chunks_missing_min_max = 1 ∧
      (update_with_chunk_stats .string s
        (some (.flba ⟨true, [1, 2], [3, 4], true, 5⟩))).null_counts = 0 ∧
      (update_with_chunk_stats .string s
        (some (.flba ⟨true, [1, 2], [3, 4], true, 5⟩))).chunks_missing_null_count = 1 :=
  ⟨_, rfl, rfl, rfl, rfl, rfl, rfl⟩

/-- C6: the `null_counts` of a freshly made summary after folding any sequence of
chunk statistics is the sum of the null counts of the chunks whose statistics
object is present, type-matching and has a usable null count (whether or not it
has usable min/max), provided that sum fits in a signed 64-bit integer. -/
theorem null_counts_eq_sum (k : ValueKind) (name : String) (t : ParquetType)
    (l : List (Option Statistics))
    (hlo : INT64_MIN ≤ ((usable_null_counts k l).map (·.null_count)).sum)
    (hhi : ((usable_null_counts k l).map (·.null_count)).sum ≤ INT64_MAX) :
    (fold_chunks k (fresh k name t) l).null_counts =
      ((usable_null_counts k l).map (·.null_count)).sum := by
  rw [fold_chunks_null_counts _ _ _ (fresh_counters _ _ _).2.2.2]
  have h0 : (fresh k name t).null_counts = 0 := rfl
  rw [h0, zero_add]
  simp only [INT64_MIN, INT64_MAX] at hlo hhi
  apply wrap64_of_range <;> omega

/-- C6, instance: an int64 column; the chunk with null count 3 has no usable
min/max, the float chunk and the chunk without usable null count add nothing. -/
theorem null_counts_eq_sum_witness :
    (fold_chunks .int64 (fresh .int64 "n" ParquetType.INT64)
        [some (.int64 ⟨false, 0, 0, true, 3⟩), none, some (.float ⟨true, 0, 0, true, 100⟩),
          some (.int64 ⟨true, 1, 2, false, 50⟩),
          some (.int64 ⟨true, 1, 2, true, 4⟩)]).null_counts =
      ((usable_null_counts .int64
        [some (.int64 ⟨false, 0, 0, true, 3⟩), none, some (.float ⟨true, 0, 0, true, 100⟩),
          some (.int64 ⟨true, 1, 2, false, 50⟩),
          some (.int64 ⟨true, 1, 2, true, 4⟩)]).map (·.null_count)).sum :=
  null_counts_eq_sum .int64 "n" ParquetType.INT64 _ (by decide) (by decide)

/-- C7: after folding any sequence of chunk statistics (short enough for the
64-bit counters) into a freshly made summary, `chunks_missing_min_max` plus the
number of chunks that contributed min/max equals `chunks`, and
`chunks_missing_null_count` plus the number of chunks that contributed a null
count equals `chunks`. -/
theorem completeness_accounting (k : ValueKind) (name : String) (t : ParquetType)
    (l : List (Option Statistics)) (hlen : (l.length : Int) ≤ INT64_MAX) :
    (fold_chunks k (fresh k name t) l).chunks_missing_min_max +
        ((usable_bounds k l).length : Int) =
      (fold_chunks k (fresh k name t) l).chunks ∧
    (fold_chunks k (fresh k name t) l).chunks_missing_null_count +
        ((usable_null_counts k l).length : Int) =
      (fold_chunks k (fresh k name t) l).chunks := by
  rw [fold_chunks_chunks _ _ _ (fresh_counters _ _ _).1,
    fold_chunks_missing_min_max _ _ _ (fresh_counters _ _ _).2.1,
    fold_chunks_missing_null_count _ _ _ (fresh_counters _ _ _).2.2.1]
  have h0 : (fresh k name t).chunks = 0 := rfl
  have h1 : (fresh k name t).chunks_missing_min_max = 0 := rfl
  have h2 : (fresh k name t).chunks_missing_null_count = 0 := rfl
  rw [h0, h1, h2, zero_add, zero_add, zero_add]
  have hb := usable_bounds_length_le k l
  have hn := usable_null_counts_length_le k l
  simp only [INT64_MAX] at hlen
  rw [wrap64_of_range _ (by omega) (by omega), wrap64_of_range _ (by omega) (by omega),
    wrap64_of_range _ (by omega) (by omega)]
  constructor <;> omega

/-- C7, instance: a double column folded with five chunks. -/
theorem completeness_accounting_witness :
    (fold_chunks .double (fresh .double "x" ParquetType.DOUBLE)
        [some (.double ⟨true, 0, 1, false, 0⟩), none, some (.int32 ⟨true, 0, 1, true, 7⟩),
          some (.double ⟨false, 0, 0, true, 2⟩),
          some (.double ⟨true, 5, 9, true, 1⟩)]).chunks_missing_min_max +
        ((usable_bounds .double
          [some (.double ⟨true, 0, 1, false, 0⟩), none, some (.int32 ⟨true, 0, 1, true, 7⟩),
            some (.double ⟨false, 0, 0, true, 2⟩),
            some (.double ⟨true, 5, 9, true, 1⟩)]).length : Int) =
      (fold_chunks .double (fresh .double "x" ParquetType.DOUBLE)
        [some (.double ⟨true, 0, 1, false, 0⟩), none, some (.int32 ⟨true, 0, 1, true, 7⟩),
          some (.double ⟨false, 0, 0, true, 2⟩),
          some (.double ⟨true, 5, 9, true, 1⟩)]).chunks ∧
    (fold_chunks .double (fresh .double "x" ParquetType.DOUBLE)
        [some (.double ⟨true, 0, 1, false, 0⟩), none, some (.int32 ⟨true, 0, 1, true, 7⟩),
          some (.double ⟨false, 0, 0, true, 2⟩),
          some (.double ⟨true, 5, 9, true, 1⟩)]).chunks_missing_null_count +
        ((usable_null_counts .double
          [some (.double ⟨true, 0, 1, false, 0⟩), none, some (.int32 ⟨true, 0, 1, true, 7⟩),
            some (.double ⟨false, 0, 0, true, 2⟩),
            some (.double ⟨true, 5, 9, true, 1⟩)]).length : Int) =
      (fold_chunks .double (fresh .double "x" ParquetType.DOUBLE)
        [some (.double ⟨true, 0, 1, false, 0⟩), none, some (.int32 ⟨true, 0, 1, true, 7⟩),
          some (.double ⟨false, 0, 0, true, 2⟩),
          some (.double ⟨true, 5, 9, true, 1⟩)]).chunks :=
  completeness_accounting .double "x" ParquetType.DOUBLE _ (by decide)

theorem usable_bounds_perm (k : ValueKind) (l1 l2 : List (Option Statistics))
    (h : l1.Perm l2) : (usable_bounds k l1).Perm (usable_bounds k l2) :=
  h.filterMap _

theorem usable_null_counts_perm (k : ValueKind) (l1 l2 : List (Option Statistics))
    (h : l1.Perm l2) : (usable_null_counts k l1).Perm (usable_null_counts k l2) :=
  h.filterMap _

/-- C8: for a bool, int32, int64 or byte-string column, folding two sequences of
chunk statistics that are permutations of each other into a freshly made summary
gives the same final `min`, the same final `max` and the same final
`null_counts`. -/
theorem fold_order_independent (k : ValueKind)
    (hk : k = .bool ∨ k = .int32 ∨ k = .int64 ∨ k = .string)
    (name : String) (t : ParquetType) (l1 l2 : List (Option Statistics))
    (h : l1.Perm l2) :
    (fold_chunks k (fresh k name t) l1).min = (fold_chunks k (fresh k name t) l2).min ∧
    (fold_chunks k (fresh k name t) l1).max = (fold_chunks k (fresh k name t) l2).max ∧
    (fold_chunks k (fresh k name t) l1).null_counts =
      (fold_chunks k (fresh k name t) l2).null_counts := by
  have ord : StrictTotal k := by
    rcases hk with rfl | rfl | rfl | rfl
    · exact strictTotal_bool
    · exact strictTotal_int32
    · exact strictTotal_int64
    · exact strictTotal_string
  have h0 : (fresh k name t).min = none := rfl
  have h1 : (fresh k name t).max = none := rfl
  refine ⟨?_, ?_, ?_⟩
  · rw [fold_chunks_min, fold_chunks_min, h0]
    exact foldl_extend_bound_perm k ord _ _ ((usable_bounds_perm k l1 l2 h).map _)
  · rw [fold_chunks_max, fold_chunks_max, h1]
    exact foldl_extend_bound_perm k ord _ _ ((usable_bounds_perm k l1 l2 h).map _)
  · rw [fold_chunks_null_counts _ _ _ (fresh_counters _ _ _).2.2.2,
      fold_chunks_null_counts _ _ _ (fresh_counters _ _ _).2.2.2,
      ((usable_null_counts_perm k l1 l2 h).map _).sum_eq]

/-- C8, instance: a byte-string column and a three-chunk sequence rotated. -/
theorem fold_order_independent_witness :
    (fold_chunks .string (fresh .string "s" ParquetType.BYTE_ARRAY)
        [some (.byte_array ⟨true, [98], [99], true, 1⟩), none,
          some (.byte_array ⟨true, [97, 122], [98, 0], true, 2⟩)]).min =
      (fold_chunks .string (fresh .string "s" ParquetType.BYTE_ARRAY)
        [none, some (.byte_array ⟨true, [97, 122], [98, 0], true, 2⟩),
          some (.byte_array ⟨true, [98], [99], true, 1⟩)]).min ∧
    (fold_chunks .string (fresh .string "s" ParquetType.BYTE_ARRAY)
        [some (.byte_array ⟨true, [98], [99], true, 1⟩), none,
          some (.byte_array ⟨true, [97, 122], [98, 0], true, 2⟩)]).max =
      (fold_chunks .string (fresh .string "s" ParquetType.BYTE_ARRAY)
        [none, some (.byte_array ⟨true, [97, 122], [98, 0], true, 2⟩),
          some (.byte_array ⟨true, [98], [99], true, 1⟩)]).max ∧
    (fold_chunks .string (fresh .string "s" ParquetType.BYTE_ARRAY)
        [some (.byte_array ⟨true, [98], [99], true, 1⟩), none,
          some (.byte_array ⟨true, [97, 122], [98, 0], true, 2⟩)]).null_counts =
      (fold_chunks .string (fresh .string "s" ParquetType.BYTE_ARRAY)
        [none, some (.byte_array ⟨true, [97, 122], [98, 0], true, 2⟩),
          some (.byte_array ⟨true, [98], [99], true, 1⟩)]).null_counts :=
  fold_order_independent .string (by decide) "s" ParquetType.BYTE_ARRAY _ _ (by decide)

theorem lex_append_cons (p : List Byte) (a : Byte) (s : List Byte) :
    List.Lex (· < ·) p (p ++ a :: s) := by
  induction p with
  | nil => exact List.Lex.nil
  | cons x xs ih => exact List.Lex.cons ih

theorem lex_first_difference (p : List Byte) (a b : Byte) (s t : List Byte) (h : a < b) :
    List.Lex (· < ·) (p ++ a :: s) (p ++ b :: t) := by
  induction p with
  | nil => exact List.Lex.rel h
  | cons x xs ih => exact List.Lex.cons ih

/-- C9: for a BYTE_ARRAY column the `min` of a freshly made summary after folding
any sequence of chunk statistics is absent exactly when no chunk had usable
bounds, and otherwise is a chunk min that no chunk min precedes in the
lexicographic order of byte lists.  The comparison used is that order on
unsigned bytes: a proper initial segment precedes its extensions, and the first
differing byte decides whatever the lengths.  Chunks with min candidates "b" and
"az", in either order, give the overall min "az". -/
theorem byte_array_min_is_lexicographic (name : String) (t : ParquetType)
    (l : List (Option Statistics)) :
    ((fold_chunks .string (fresh .string name t) l).min = none ↔
        usable_bounds .string l = []) ∧
    (∀ m : List Byte, (fold_chunks .string (fresh .string name t) l).min = some m →
      m ∈ (usable_bounds .string l).map (·.min) ∧
        ∀ x ∈ (usable_bounds .string l).map (·.min), ¬ List.Lex (· < ·) x m) ∧
    (∀ a b : List Byte, value_gt .string a b = true ↔ List.Lex (· < ·) b a) ∧
    (∀ (p : List Byte) (a : Byte) (s : List Byte),
      value_gt .string (p ++ a :: s) p = true) ∧
    (∀ (p : List Byte) (a b : Byte) (s u : List Byte), a < b →
      value_gt .string (p ++ b :: u) (p ++ a :: s) = true) ∧
    (fold_chunks .string (fresh .string "s" ParquetType.BYTE_ARRAY)
        [some (.byte_array ⟨true, [98], [98], true, 0⟩),
          some (.byte_array ⟨true, [97, 122], [97, 122], true, 0⟩)]).min =
      some [97, 122] ∧
    (fold_chunks .string (fresh .string "s" ParquetType.BYTE_ARRAY)
        [some (.byte_array ⟨true, [97, 122], [97, 122], true, 0⟩),
          some (.byte_array ⟨true, [98], [98], true, 0⟩)]).min =
      some [97, 122] := by
  refine ⟨(fold_min_least .string strictTotal_string name t l).1, fun m hm => ?_,
    fun a b => string_gt_iff_lex a b, fun p a s => ?_, fun p a b s u h => ?_, by decide,
    by decide⟩
  · obtain ⟨h1, h2⟩ := (fold_min_least .string strictTotal_string name t l).2 m hm
    refine ⟨h1, fun x hx hlex => ?_⟩
    have hgt : value_gt .string m x = true := (string_gt_iff_lex m x).2 hlex
    rw [h2 x hx] at hgt
    cases hgt
  · exact (string_gt_iff_lex _ _).2 (lex_append_cons p a s)
  · exact (string_gt_iff_lex _ _).2 (lex_first_difference p a b s u h)

/-- C9, instance: three chunks with min candidates "b", "az" and "a"; the overall
min is "a", a proper initial segment of "az". -/
theorem byte_array_min_is_lexicographic_witness :
    ([97] : List Byte) ∈ (usable_bounds .string
        [some (.byte_array ⟨true, [98], [98], true, 0⟩),
          some (.byte_array ⟨true, [97, 122], [97, 122], true, 0⟩),
          some (.byte_array ⟨true, [97], [99], true, 0⟩)]).map (·.min) ∧
      ∀ x ∈ (usable_bounds .string
        [some (.byte_array ⟨true, [98], [98], true, 0⟩),
          some (.byte_array ⟨true, [97, 122], [97, 122], true, 0⟩),
          some (.byte_array ⟨true, [97], [99], true, 0⟩)]).map (·.min),
        ¬ List.Lex (· < ·) x ([97] : List Byte) :=
  (byte_array_min_is_lexicographic "s" ParquetType.BYTE_ARRAY _).2.1 [97] (by decide)

theorem typed_cast_mismatch (k : ValueKind) (st : Statistics)
    (h : st.dtype ≠ ParquetTypeMap k) : typed_cast k (some st) = none := by
  cases k <;> cases st <;> first | rfl | exact absurd rfl h

theorem update_of_cast_none (k : ValueKind) (s : ColumnSummary k.T)
    (stats : Option Statistics) (h : typed_cast k stats = none) :
    update_with_chunk_stats k s stats =
      { s with
        chunks := wrap64 (s.chunks + 1)
        chunks_missing_min_max := wrap64 (s.chunks_missing_min_max + 1)
        chunks_missing_null_count := wrap64 (s.chunks_missing_null_count + 1) } := by
  unfold update_with_chunk_stats
  simp only [h]

theorem wrap64_succ (x : Int) (h1 : INT64_MIN ≤ x) (h2 : x < INT64_MAX) :
    wrap64 (x + 1) = x + 1 := by
  simp only [INT64_MIN, INT64_MAX] at h1 h2
  apply wrap64_of_range <;> omega

/-- C10: for every value type, every summary state and every statistics object
whose dynamic type is not the one mapped to the value type,
`update_with_chunk_stats` returns exactly the state it returns for a null
statistics pointer: `min`, `max` and `null_counts` are unchanged and `chunks`,
`chunks_missing_min_max` and `chunks_missing_null_count` are each incremented
(by one, as 64-bit integers). -/
theorem mismatch_same_as_absent (k : ValueKind) (s : ColumnSummary k.T) (st : Statistics)
    (h : st.dtype ≠ ParquetTypeMap k) :
    update_with_chunk_stats k s (some st) = update_with_chunk_stats k s none ∧
    (update_with_chunk_stats k s (some st)).min = s.min ∧
    (update_with_chunk_stats k s (some st)).max = s.max ∧
    (update_with_chunk_stats k s (some st)).null_counts = s.null_counts ∧
    (update_with_chunk_stats k s (some st)).chunks = wrap64 (s.chunks + 1) ∧
    (update_with_chunk_stats k s (some st)).chunks_missing_min_max =
      wrap64 (s.chunks_missing_min_max + 1) ∧
    (update_with_chunk_stats k s (some st)).chunks_missing_null_count =
      wrap64 (s.chunks_missing_null_count + 1) ∧
    (INT64_MIN ≤ s.chunks → s.chunks < INT64_MAX →
      (update_with_chunk_stats k s (some st)).chunks = s.chunks + 1) ∧
    (INT64_MIN ≤ s.chunks_missing_min_max → s.chunks_missing_min_max < INT64_MAX →
      (update_with_chunk_stats k s (some st)).chunks_missing_min_max =
        s.chunks_missing_min_max + 1) ∧
    (INT64_MIN ≤ s.chunks_missing_null_count → s.chunks_missing_null_count < INT64_MAX →
      (update_with_chunk_stats k s (some st)).chunks_missing_null_count =
        s.chunks_missing_null_count + 1) := by
  rw [update_of_cast_none k s (some st) (typed_cast_mismatch k st h),
    update_of_cast_none k s none (typed_cast_none k)]
  exact ⟨rfl, rfl, rfl, rfl, rfl, rfl, rfl, fun h1 h2 => wrap64_succ _ h1 h2,
    fun h1 h2 => wrap64_succ _ h1 h2, fun h1 h2 => wrap64_succ _ h1 h2⟩

/-- C10, instance: an int32 summary holding bounds and counts, updated with a
float statistics object that reports usable bounds and a null count. -/
theorem mismatch_same_as_absent_witness :
    update_with_chunk_stats .int32
        { name := "n", physical_type := ParquetType.INT32, null_counts := 7, min := some 1,
          max := some 4, chunks := 3, chunks_missing_null_count := 1,
          chunks_missing_min_max := 2 }
        (some (.float ⟨true, 0, 1065353216, true, 9⟩)) =
      update_with_chunk_stats .int32
        { name := "n", physical_type := ParquetType.INT32, null_counts := 7, min := some 1,
          max := some 4, chunks := 3, chunks_missing_null_count := 1,
          chunks_missing_min_max := 2 } none ∧
    (update_with_chunk_stats .int32
        { name := "n", physical_type := ParquetType.INT32, null_counts := 7, min := some 1,
          max := some 4, chunks := 3, chunks_missing_null_count := 1,
          chunks_missing_min_max := 2 }
        (some (.float ⟨true, 0, 1065353216, true, 9⟩))).chunks = 3 + 1 :=
  ⟨(mismatch_same_as_absent .int32 _ (.float ⟨true, 0, 1065353216, true, 9⟩) (by decide)).1,
    (mismatch_same_as_absent .int32 _ (.float ⟨true, 0, 1065353216, true, 9⟩)
      (by decide)).2.2.2.2.2.2.2.1 (by decide) (by decide)⟩

/-! ## Summary construction -/

theorem supported_iff_not_unsupported (t : ParquetType) :
    supported_type t = true ↔ unsupported_type t = false := by
  simp only [supported_type, unsupported_type, decide_eq_true_eq, decide_eq_false_iff_not,
    List.mem_cons, List.mem_singleton, List.not_mem_nil, or_false]
  unfold ParquetType at t
  unfold ParquetType.BOOLEAN ParquetType.INT32 ParquetType.INT64 ParquetType.FLOAT
    ParquetType.DOUBLE ParquetType.BYTE_ARRAY ParquetType.FIXED_LEN_BYTE_ARRAY
    ParquetType.INT96 ParquetType.UNDEFINED
  unfold ParquetType
  omega

theorem make_error_iff (col : ColumnDescriptor) :
    (∃ e, make_column_summary_variant col = .error e) ↔
      unsupported_type col.physical_type = true := by
  unfold make_column_summary_variant unsupported_type
  simp only [decide_eq_true_eq]
  generalize col.physical_type = t
  unfold ParquetType at t
  unfold ParquetType.BOOLEAN ParquetType.INT32 ParquetType.INT64 ParquetType.FLOAT
    ParquetType.DOUBLE ParquetType.BYTE_ARRAY ParquetType.FIXED_LEN_BYTE_ARRAY
    ParquetType.INT96 ParquetType.UNDEFINED
  unfold ParquetType
  split_ifs <;> simp <;> omega

theorem build_summaries_error_iff (schema : List ColumnDescriptor) :
    (∃ e, build_summaries schema = .error e) ↔
      ∃ col ∈ schema, unsupported_type col.physical_type = true := by
  induction schema with
  | nil => simp [build_summaries]
  | cons col rest ih =>
    simp only [build_summaries, List.mem_cons, exists_eq_or_imp]
    rw [← make_error_iff col, ← ih]
    cases h1 : make_column_summary_variant col with
    | error e => simp
    | ok v =>
      cases h2 : build_summaries rest with
      | error e => simp
      | ok l => simp

theorem build_summaries_get (schema : List ColumnDescriptor) :
    ∀ summaries, build_summaries schema = .ok summaries →
      summaries.length = schema.length ∧
      ∀ (c : Nat) (col : ColumnDescriptor), schema[c]? = some col →
        ∃ v0, make_column_summary_variant col = .ok v0 ∧ summaries[c]? = some v0 := by
  induction schema with
  | nil =>
    intro summaries h
    simp only [build_summaries, Except.ok.injEq] at h
    subst h
    exact ⟨rfl, by simp⟩
  | cons col rest ih =>
    intro summaries h
    simp only [build_summaries] at h
    cases h1 : make_column_summary_variant col with
    | error e => rw [h1] at h; cases h
    | ok v =>
      cases h2 : build_summaries rest with
      | error e => rw [h1, h2] at h; cases h
      | ok l =>
        rw [h1, h2] at h
        simp only [Except.ok.injEq] at h
        subst h
        obtain ⟨hlen, hget⟩ := ih l h2
        refine ⟨by simp [hlen], ?_⟩
        intro c col1 hc
        cases c with
        | zero =>
          simp only [List.getElem?_cons_zero, Option.some.injEq] at hc
          subst hc
          exact ⟨v, h1, by simp⟩
        | succ c =>
          simp only [List.getElem?_cons_succ] at hc
          obtain ⟨v0, hv0, hs⟩ := hget c col1 hc
          exact ⟨v0, hv0, by simpa using hs⟩

theorem visit_update_frame (v : ColumnSummaryVariant) (stats : Option Statistics) :
    (visit_update v stats).kind = v.kind ∧ (visit_update v stats).col.name = v.col.name ∧
      (visit_update v stats).col.physical_type = v.col.physical_type :=
  ⟨rfl, (update_name v.kind v.col stats).1, (update_name v.kind v.col stats).2⟩

/-- C11: `make_column_summary_variant` throws exactly for INT96, UNDEFINED and
tags that are not enumerators; for each other physical type it returns the
variant member BOOLEAN->bool, INT32->int32, INT64->int64, FLOAT->float,
DOUBLE->double, BYTE_ARRAY and FIXED_LEN_BYTE_ARRAY->string, with the name and
physical type of the descriptor, all counters zero and both bounds absent. -/
theorem make_column_summary_variant_spec (col : ColumnDescriptor) :
    ((∃ e, make_column_summary_variant col = .error e) ↔
      (col.physical_type = ParquetType.INT96 ∨ col.physical_type = ParquetType.UNDEFINED ∨
        col.physical_type < 0 ∨ 8 < col.physical_type)) ∧
    (col.physical_type = ParquetType.BOOLEAN →
      make_column_summary_variant col = .ok ⟨.bool,
        { name := col.name, physical_type := col.physical_type, null_counts := 0,
          min := none, max := none, chunks := 0, chunks_missing_null_count := 0,
          chunks_missing_min_max := 0 }⟩) ∧
    (col.physical_type = ParquetType.INT32 →
      make_column_summary_variant col = .ok ⟨.int32,
        { name := col.name, physical_type := col.physical_type, null_counts := 0,
          min := none, max := none, chunks := 0, chunks_missing_null_count := 0,
          chunks_missing_min_max := 0 }⟩) ∧
    (col.physical_type = ParquetType.INT64 →
      make_column_summary_variant col = .ok ⟨.int64,
        { name := col.name, physical_type := col.physical_type, null_counts := 0,
          min := none, max := none, chunks := 0, chunks_missing_null_count := 0,
          chunks_missing_min_max := 0 }⟩) ∧
    (col.physical_type = ParquetType.FLOAT →
      make_column_summary_variant col = .ok ⟨.float,
        { name := col.name, physical_type := col.physical_type, null_counts := 0,
          min := none, max := none, chunks := 0, chunks_missing_null_count := 0,
          chunks_missing_min_max := 0 }⟩) ∧
    (col.physical_type = ParquetType.DOUBLE →
      make_column_summary_variant col = .ok ⟨.double,
        { name := col.name, physical_type := col.physical_type, null_counts := 0,
          min := none, max := none, chunks := 0, chunks_missing_null_count := 0,
          chunks_missing_min_max := 0 }⟩) ∧
    (col.physical_type = ParquetType.BYTE_ARRAY →
      make_column_summary_variant col = .ok ⟨.string,
        { name := col.name, physical_type := col.physical_type, null_counts := 0,
          min := none, max := none, chunks := 0, chunks_missing_null_count := 0,
          chunks_missing_min_max := 0 }⟩) ∧
    (col.physical_type = ParquetType.FIXED_LEN_BYTE_ARRAY →
      make_column_summary_variant col = .ok ⟨.string,
        { name := col.name, physical_type := col.physical_type, null_counts := 0,
          min := none, max := none, chunks := 0, chunks_missing_null_count := 0,
          chunks_missing_min_max := 0 }⟩) := by
  refine ⟨?_, ?_, ?_, ?_, ?_, ?_, ?_, ?_⟩
  · rw [make_error_iff]
    simp [unsupported_type]
  all_goals
    intro h
    simp [make_column_summary_variant, h, fresh]

/-- C11, instance: a DOUBLE column named "price". -/
theorem make_column_summary_variant_spec_witness :
    make_column_summary_variant ⟨"price", ParquetType.DOUBLE⟩ = .ok ⟨.double,
      { name := "price", physical_type := ParquetType.DOUBLE, null_counts := 0,
        min := none, max := none, chunks := 0, chunks_missing_null_count := 0,
        chunks_missing_min_max := 0 }⟩ :=
  (make_column_summary_variant_spec ⟨"price", ParquetType.DOUBLE⟩).2.2.2.2.2.1 rfl

/-- C12: the aggregation throws exactly when some schema column has physical type
INT96, UNDEFINED or a tag that is not an enumerator; the exception is the one of
summary construction (the first loop of `main`), so it is thrown before the
row-group loop runs and is the same whatever the row groups contain, and the
failed run yields no summary vector. -/
theorem aggregate_fails_iff_unsupported (schema : List ColumnDescriptor)
    (row_groups : List RowGroup) :
    ((∃ e, aggregate schema row_groups = .error e) ↔
      ∃ col ∈ schema,
        (col.physical_type = ParquetType.INT96 ∨ col.physical_type = ParquetType.UNDEFINED ∨
          col.physical_type < 0 ∨ 8 < col.physical_type)) ∧
    (∀ e, aggregate schema row_groups = .error e →
      build_summaries schema = .error e ∧
        ∀ other : List RowGroup, aggregate schema other = .error e) ∧
    ∀ summaries, build_summaries schema = .ok summaries →
      aggregate schema row_groups = .ok (row_group_loop row_groups summaries) := by
  refine ⟨?_, ?_, ?_⟩
  · have h := build_summaries_error_iff schema
    simp only [unsupported_type, decide_eq_true_eq] at h
    rw [← h]
    unfold aggregate
    cases build_summaries schema with
    | error e => simp
    | ok l => simp
  · intro e he
    unfold aggregate at he
    cases hb : build_summaries schema with
    | error e1 =>
      rw [hb] at he
      simp only [Except.error.injEq] at he
      subst he
      exact ⟨rfl, fun other => by simp only [aggregate, hb]⟩
    | ok l =>
      rw [hb] at he
      cases he
  · intro summaries hb
    simp only [aggregate, hb]

/-- C12, instance: a schema whose second column is INT96; the exception of the
construction is thrown for any row groups. -/
theorem aggregate_fails_iff_unsupported_witness :
    build_summaries [⟨"flag", ParquetType.BOOLEAN⟩, ⟨"ts", ParquetType.INT96⟩] =
        .error "Unsupported type" ∧
      ∀ other : List RowGroup,
        aggregate [⟨"flag", ParquetType.BOOLEAN⟩, ⟨"ts", ParquetType.INT96⟩] other =
          .error "Unsupported type" :=
  (aggregate_fails_iff_unsupported [⟨"flag", ParquetType.BOOLEAN⟩, ⟨"ts", ParquetType.INT96⟩]
    [[some (.boolean ⟨true, false, true, true, 2⟩), none]]).2.1 "Unsupported type" rfl

/-- C13: for every schema of supported column types and every list of row groups
whose chunk count equals the schema's column count, the result vector has one
summary per schema column, and entry `c` has the variant member that
`make_column_summary_variant` gives for schema column `c`, its name and its
physical type, and is the fold of the dispatched chunks of column `c` only.
A dispatch never changes the variant member, the name or the physical type. -/
theorem aggregate_result_shape (schema : List ColumnDescriptor) (row_groups : List RowGroup)
    (hs : ∀ col ∈ schema, supported_type col.physical_type = true)
    (hrg : ∀ rg ∈ row_groups, rg.length = schema.length) :
    (∃ result, aggregate schema row_groups = .ok (some result) ∧
      result.length = schema.length ∧
      ∀ (c : Nat) (col : ColumnDescriptor), schema[c]? = some col →
        ∃ v v0, result[c]? = some v ∧ make_column_summary_variant col = .ok v0 ∧
          v.kind = v0.kind ∧ v.col.name = col.name ∧
          v.col.physical_type = col.physical_type ∧
          v.col = fold_chunks v.kind (fresh v.kind col.name col.physical_type)
            ((column_chunks c row_groups).filter Option.isSome)) ∧
    ∀ (v : ColumnSummaryVariant) (stats : Option Statistics),
      (visit_update v stats).kind = v.kind ∧ (visit_update v stats).col.name = v.col.name ∧
        (visit_update v stats).col.physical_type = v.col.physical_type := by
  refine ⟨?_, visit_update_frame⟩
  obtain ⟨summaries, hb, -, -⟩ := build_summaries_spec schema hs
  obtain ⟨hlen, hget⟩ := build_summaries_get schema summaries hb
  obtain ⟨result, hres, hlen1, hfold⟩ := row_group_loop_spec row_groups summaries (by
    intro rg h
    rw [hlen]
    exact hrg rg h)
  refine ⟨result, by simp only [aggregate, hb, hres], hlen1.trans hlen, ?_⟩
  intro c col hc
  obtain ⟨v0, hv0, hs0⟩ := hget c col hc
  have hmem : col ∈ schema := List.getElem?_mem hc
  obtain ⟨k, hk⟩ := make_supported col (hs col hmem)
  rw [hk, Except.ok.injEq] at hv0
  subst hv0
  refine ⟨_, _, hfold c _ hs0, hk, rfl, ?_, ?_, rfl⟩
  · exact (fold_chunks_name _ _ _).1
  · exact (fold_chunks_name _ _ _).2

/-- C13, instance: two columns and two row groups. -/
theorem aggregate_result_shape_witness :
    ∃ result,
      aggregate [⟨"flag", ParquetType.BOOLEAN⟩, ⟨"id", ParquetType.FIXED_LEN_BYTE_ARRAY⟩]
          [[some (.boolean ⟨true, false, true, true, 2⟩), some (.flba ⟨true, [1], [2], true, 0⟩)],
            [none, some (.flba ⟨true, [0], [3], true, 1⟩)]] = .ok (some result) ∧
        result.length = 2 ∧
        ∀ (c : Nat) (col : ColumnDescriptor),
          [(⟨"flag", ParquetType.BOOLEAN⟩ : ColumnDescriptor),
              ⟨"id", ParquetType.FIXED_LEN_BYTE_ARRAY⟩][c]? = some col →
          ∃ v v0, result[c]? = some v ∧ make_column_summary_variant col = .ok v0 ∧
            v.kind = v0.kind ∧ v.col.name = col.name ∧
            v.col.physical_type = col.physical_type ∧
            v.col = fold_chunks v.kind (fresh v.kind col.name col.physical_type)
              ((column_chunks c
                [[some (.boolean ⟨true, false, true, true, 2⟩),
                    some (.flba ⟨true, [1], [2], true, 0⟩)],
                  [none, some (.flba ⟨true, [0], [3], true, 1⟩)]]).filter Option.isSome) :=
  (aggregate_result_shape _ _ (by decide) (by decide)).1

/-- C14: in the aggregation of a schema of supported column types over row groups
holding one chunk per column, a column for which every row group's chunk
statistics object is absent ends with `min` and `max` absent, `null_counts = 0`
and `chunks_missing_min_max = chunks_missing_null_count = chunks` (all three are
0, no chunk of the column being dispatched). -/
theorem all_absent_column (schema : List ColumnDescriptor) (row_groups : List RowGroup)
    (hs : ∀ col ∈ schema, supported_type col.physical_type = true)
    (hrg : ∀ rg ∈ row_groups, rg.length = schema.length)
    (c : Nat) (hc : c < schema.length)
    (habs : ∀ st ∈ column_chunks c row_groups, st = none) :
    ∃ result v, aggregate schema row_groups = .ok (some result) ∧ result[c]? = some v ∧
      v.col.min = none ∧ v.col.max = none ∧ v.col.null_counts = 0 ∧
      v.col.chunks_missing_min_max = v.col.chunks ∧
      v.col.chunks_missing_null_count = v.col.chunks ∧ v.col.chunks = 0 := by
  obtain ⟨result, h1, h2, h3⟩ := aggregate_spec schema row_groups hs hrg
  have hc1 : c < result.length := by omega
  obtain ⟨col, -, hcol⟩ := h3 c result[c] (List.getElem?_eq_getElem hc1)
  have hnil : (column_chunks c row_groups).filter Option.isSome = [] := by
    rw [List.filter_eq_nil_iff]
    intro st hst
    rw [habs st hst]
    simp
  rw [hnil] at hcol
  refine ⟨result, result[c], h1, List.getElem?_eq_getElem hc1, ?_⟩
  rw [hcol]
  exact ⟨rfl, rfl, rfl, rfl, rfl, rfl⟩

/-- C14, instance: the second column has no statistics object in any of the three
row groups. -/
theorem all_absent_column_witness :
    ∃ result v,
      aggregate [⟨"flag", ParquetType.BOOLEAN⟩, ⟨"n", ParquetType.INT64⟩]
          [[some (.boolean ⟨true, false, true, true, 2⟩), none], [none, none],
            [some (.boolean ⟨false, false, false, true, 0⟩), none]] = .ok (some result) ∧
        result[1]? = some v ∧
        v.col.min = none ∧ v.col.max = none ∧ v.col.null_counts = 0 ∧
        v.col.chunks_missing_min_max = v.col.chunks ∧
        v.col.chunks_missing_null_count = v.col.chunks ∧ v.col.chunks = 0 :=
  all_absent_column _ _ (by decide) (by decide) 1 (by decide) (by decide)

/-! ## Table rendering -/

theorem center_length (s : String) (width : Nat) : (center s width).length = width := by
  unfold center
  split_ifs with h
  · rw [String.take_eq, String.length_mk, List.length_take]
    have : s.length = s.data.length := rfl
    omega
  · simp only [String.length_append, String.length_mk, List.length_replicate]
    omega

/-- C16: `center(s, width)` always has length `width`; when `s` is longer than
`width` it is the first `width` characters of `s`; otherwise it is
`floor((width - |s|) / 2)` spaces, then `s`, then the remaining spaces, so the
left padding never exceeds the right one and they differ by at most one. -/
theorem center_spec (s : String) (width : Nat) :
    (center s width).length = width ∧
    (width < s.length →
      center s width = s.take width ∧ (center s width).data = s.data.take width) ∧
    (s.length ≤ width →
      center s width =
        String.mk (List.replicate ((width - s.length) / 2) ' ') ++ s ++
          String.mk (List.replicate (width - s.length - (width - s.length) / 2) ' ') ∧
      (width - s.length) / 2 ≤ width - s.length - (width - s.length) / 2 ∧
      (width - s.length - (width - s.length) / 2) - (width - s.length) / 2 ≤ 1) := by
  refine ⟨center_length s width, fun h => ?_, fun h => ?_⟩
  · have hc : center s width = s.take width := by
      unfold center
      rw [if_pos h]
    exact ⟨hc, by rw [hc, String.data_take]⟩
  · refine ⟨?_, by omega, by omega⟩
    unfold center
    rw [if_neg (by omega)]

/-- C16, instance: a two-character string centred in width 7 gets two spaces on
the left and three on the right; a six-character string in width 4 is cut. -/
theorem center_spec_witness :
    (center "ab" 7 = "  ab   " ∧ (7 - 2) / 2 ≤ 7 - 2 - (7 - 2) / 2) ∧
      center "Column" 4 = "Colu" :=
  ⟨⟨((center_spec "ab" 7).2.2 (by decide)).1, ((center_spec "ab" 7).2.2 (by decide)).2.1⟩,
    ((center_spec "Column" 4).2.1 (by decide)).1⟩

/-- C15 (code evaluated at the failing input): for a table of one summary named
"id" the width of the first field is 4, the default of `TableWidths::name`,
although its header label "Column" has 6 characters; `print_table` then prints
the label cut to "Colu". -/
theorem name_width_below_header (r : Rendering) :
    (compute_widths r [⟨.int32, fresh .int32 "id" ParquetType.INT32⟩]).name = 4 ∧
    "Column".length = 6 ∧
    center "Column" (compute_widths r [⟨.int32, fresh .int32 "id" ParquetType.INT32⟩]).name =
      "Colu" := by
  refine ⟨rfl, by decide, ?_⟩
  show center "Column" 4 = "Colu"
  decide

theorem measure_row_mono (r : Rendering) (w : TableWidths) (v : ColumnSummaryVariant) :
    w.name ≤ (measure_row r w v).name ∧
    w.physical_type ≤ (measure_row r w v).physical_type ∧
    w.nulls ≤ (measure_row r w v).nulls ∧
    w.min ≤ (measure_row r w v).min ∧
    w.max ≤ (measure_row r w v).max ∧
    w.chunks ≤ (measure_row r w v).chunks ∧
    w.chunks_missing_min_max ≤ (measure_row r w v).chunks_missing_min_max ∧
    (measure_row r w v).chunks_missing_null_count = w.chunks_missing_null_count :=
  ⟨le_max_left _ _, le_max_left _ _, le_max_left _ _, le_max_left _ _, le_max_left _ _,
    le_max_left _ _, le_max_left _ _, rfl⟩

theorem measure_row_covers (r : Rendering) (w : TableWidths) (v : ColumnSummaryVariant) :
    v.col.name.length ≤ (measure_row r w v).name ∧
    (r.TypeToString v.col.physical_type).length ≤ (measure_row r w v).physical_type ∧
    (to_string v.col.null_counts).length ≤ (measure_row r w v).nulls ∧
    (option_to_string r v.kind v.col.min).length ≤ (measure_row r w v).min ∧
    (option_to_string r v.kind v.col.max).length ≤ (measure_row r w v).max ∧
    (to_string v.col.chunks).length ≤ (measure_row r w v).chunks ∧
    (to_string v.col.chunks_missing_min_max).length ≤
      (measure_row r w v).chunks_missing_min_max :=
  ⟨le_max_right _ _, le_max_right _ _, le_max_right _ _, le_max_right _ _, le_max_right _ _,
    le_max_right _ _, le_max_right _ _⟩

theorem foldl_measure_mono (r : Rendering) (l : List ColumnSummaryVariant) :
    ∀ w : TableWidths,
      w.name ≤ (l.foldl (measure_row r) w).name ∧
      w.physical_type ≤ (l.foldl (measure_row r) w).physical_type ∧
      w.nulls ≤ (l.foldl (measure_row r) w).nulls ∧
      w.min ≤ (l.foldl (measure_row r) w).min ∧
      w.max ≤ (l.foldl (measure_row r) w).max ∧
      w.chunks ≤ (l.foldl (measure_row r) w).chunks ∧
      w.chunks_missing_min_max ≤ (l.foldl (measure_row r) w).chunks_missing_min_max ∧
      (l.foldl (measure_row r) w).chunks_missing_null_count = w.chunks_missing_null_count := by
  induction l with
  | nil => intro w; simp
  | cons x l ih =>
    intro w
    rw [List.foldl_cons]
    obtain ⟨a1, a2, a3, a4, a5, a6, a7, a8⟩ := ih (measure_row r w x)
    obtain ⟨b1, b2, b3, b4, b5, b6, b7, b8⟩ := measure_row_mono r w x
    exact ⟨b1.trans a1, b2.trans a2, b3.trans a3, b4.trans a4, b5.trans a5, b6.trans a6,
      b7.trans a7, a8.trans b8⟩

theorem foldl_measure_covers (r : Rendering) (l : List ColumnSummaryVariant) :
    ∀ (w : TableWidths) (v : ColumnSummaryVariant), v ∈ l →
      v.col.name.length ≤ (l.foldl (measure_row r) w).name ∧
      (r.TypeToString v.col.physical_type).length ≤
        (l.foldl (measure_row r) w).physical_type ∧
      (to_string v.col.null_counts).length ≤ (l.foldl (measure_row r) w).nulls ∧
      (option_to_string r v.kind v.col.min).length ≤ (l.foldl (measure_row r) w).min ∧
      (option_to_string r v.kind v.col.max).length ≤ (l.foldl (measure_row r) w).max ∧
      (to_string v.col.chunks).length ≤ (l.foldl (measure_row r) w).chunks ∧
      (to_string v.col.chunks_missing_min_max).length ≤
        (l.foldl (measure_row r) w).chunks_missing_min_max := by
  induction l with
  | nil => intro w v hv; cases hv
  | cons x l ih =>
    intro w v hv
    rw [List.foldl_cons]
    rcases List.mem_cons.1 hv with rfl | hv
    · obtain ⟨a1, a2, a3, a4, a5, a6, a7, -⟩ := foldl_measure_mono r l (measure_row r w v)
      obtain ⟨b1, b2, b3, b4, b5, b6, b7⟩ := measure_row_covers r w v
      exact ⟨b1.trans a1, b2.trans a2, b3.trans a3, b4.trans a4, b5.trans a5, b6.trans a6,
        b7.trans a7⟩
    · exact ih _ v hv

theorem to_string_length_le (x : Int) (h1 : INT64_MIN ≤ x) (h2 : x ≤ INT64_MAX) :
    (to_string x).length ≤ 20 := by
  simp only [INT64_MIN, INT64_MAX] at h1 h2
  cases x with
  | ofNat m =>
    have hm : m < 10 ^ 19 := by
      have : (m : Int) ≤ 2 ^ 63 - 1 := h2
      omega
    have := Nat.repr_length m 19 (by decide) hm
    show (Nat.repr m).length ≤ 20
    omega
  | negSucc m =>
    have hm : m + 1 < 10 ^ 19 := by
      have : -(2 ^ 63 : Int) ≤ Int.negSucc m := h1
      rw [Int.negSucc_eq] at this
      omega
    have := Nat.repr_length (m + 1) 19 (by decide) hm
    show ("-" ++ Nat.repr (m + 1)).length ≤ 20
    rw [String.length_append]
    have h1 : "-".length = 1 := rfl
    omega

theorem table_row_length (r : Rendering) (w : TableWidths) (v : ColumnSummaryVariant) :
    (table_row r w v).length = (header_row w).length := by
  simp only [table_row, header_row, String.length_append, center_length]

/-- C20: in the table printed for any list of summaries, every field of every row
fits the width passed to `center` for it: the seven measured fields by
`compute_widths`, and `chunks_missing_null_count` because its width stays at the
constant 22 while the decimal text of a signed 64-bit counter has at most 20
characters.  Hence no value is cut and every row has the length of the header
row. -/
theorem rows_not_truncated (r : Rendering) (summaries : List ColumnSummaryVariant)
    (v : ColumnSummaryVariant) (hv : v ∈ summaries)
    (hlo : INT64_MIN ≤ v.col.chunks_missing_null_count)
    (hhi : v.col.chunks_missing_null_count ≤ INT64_MAX) :
    v.col.name.length ≤ (compute_widths r summaries).name ∧
    (r.TypeToString v.col.physical_type).length ≤ (compute_widths r summaries).physical_type ∧
    (to_string v.col.null_counts).length ≤ (compute_widths r summaries).nulls ∧
    (option_to_string r v.kind v.col.min).length ≤ (compute_widths r summaries).min ∧
    (option_to_string r v.kind v.col.max).length ≤ (compute_widths r summaries).max ∧
    (to_string v.col.chunks).length ≤ (compute_widths r summaries).chunks ∧
    (to_string v.col.chunks_missing_min_max).length ≤
      (compute_widths r summaries).chunks_missing_min_max ∧
    (compute_widths r summaries).chunks_missing_null_count = 22 ∧
    (to_string v.col.chunks_missing_null_count).length ≤ 20 ∧
    (to_string v.col.chunks_missing_null_count).length ≤
      (compute_widths r summaries).chunks_missing_null_count ∧
    (table_row r (compute_widths r summaries) v).length =
      (header_row (compute_widths r summaries)).length := by
  obtain ⟨a1, a2, a3, a4, a5, a6, a7⟩ := foldl_measure_covers r summaries {} v hv
  have h22 : (compute_widths r summaries).chunks_missing_null_count = 22 :=
    (foldl_measure_mono r summaries {}).2.2.2.2.2.2.2
  have h20 := to_string_length_le _ hlo hhi
  exact ⟨a1, a2, a3, a4, a5, a6, a7, h22, h20, by rw [h22]; omega, table_row_length r _ v⟩

/-- C20, instance: a table of two summaries, the second holding the smallest
64-bit value in `chunks_missing_null_count` (20 characters). -/
theorem rows_not_truncated_witness :
    (to_string (-9223372036854775808)).length ≤ 20 ∧
    (compute_widths ⟨fun _ => "T", fun _ => "f", fun _ => "d"⟩
      [⟨.bool, fresh .bool "flag" ParquetType.BOOLEAN⟩,
        ⟨.int64,
          { name := "a_long_column_name", physical_type := ParquetType.INT64,
            chunks_missing_null_count := -9223372036854775808 }⟩]).chunks_missing_null_count =
      22 ∧
    ("a_long_column_name").length ≤
      (compute_widths ⟨fun _ => "T", fun _ => "f", fun _ => "d"⟩
        [⟨.bool, fresh .bool "flag" ParquetType.BOOLEAN⟩,
          ⟨.int64,
            { name := "a_long_column_name", physical_type := ParquetType.INT64,
              chunks_missing_null_count := -9223372036854775808 }⟩]).name :=
  have h := rows_not_truncated ⟨fun _ => "T", fun _ => "f", fun _ => "d"⟩
    [⟨.bool, fresh .bool "flag" ParquetType.BOOLEAN⟩,
      ⟨.int64,
        { name := "a_long_column_name", physical_type := ParquetType.INT64,
          chunks_missing_null_count := -9223372036854775808 }⟩]
    ⟨.int64,
      { name := "a_long_column_name", physical_type := ParquetType.INT64,
        chunks_missing_null_count := -9223372036854775808 }⟩
    (List.mem_cons_of_mem _ (List.mem_cons_self _ _)) (by decide) (by decide)
  ⟨h.2.2.2.2.2.2.2.2.1, h.2.2.2.2.2.2.2.1, h.1⟩

/-- C17 (as stated, refuted): a summary with `null_counts = 5` updated with an int64
statistics object reporting the null count -3 ends with `null_counts = 2`. -/
theorem null_counts_can_decrease :
    (update_with_chunk_stats .int64
        { name := "n", physical_type := ParquetType.INT64, null_counts := 5 }
        (some (.int64 ⟨false, 0, 0, true, -3⟩))).null_counts = 2 ∧
    (update_with_chunk_stats .int64
        { name := "n", physical_type := ParquetType.INT64, null_counts := 5 }
        (some (.int64 ⟨false, 0, 0, true, -3⟩))).null_counts <
      ({ name := "n", physical_type := ParquetType.INT64, null_counts := 5 } :
        ColumnSummary Int).null_counts := by
  decide

/-- C17 (amended): for every summary state and every chunk statistics input that is
absent, mismatched, without usable null count, or reports a non-negative null
count whose sum with the current `null_counts` fits in a signed 64-bit integer,
`null_counts` after `update_with_chunk_stats` is at least its value before. -/
theorem null_counts_monotone (k : ValueKind) (s : ColumnSummary k.T)
    (stats : Option Statistics) (hlo : INT64_MIN ≤ s.null_counts)
    (hnn : ∀ ts, typed_cast k stats = some ts → ts.HasNullCount = true →
      0 ≤ ts.null_count ∧ s.null_counts + ts.null_count ≤ INT64_MAX) :
    s.null_counts ≤ (update_with_chunk_stats k s stats).null_counts := by
  rw [update_null_counts]
  cases hc : typed_cast k stats with
  | none => exact le_refl _
  | some ts =>
    cases hn : ts.HasNullCount with
    | false => simp [hn]
    | true =>
      obtain ⟨h0, h1⟩ := hnn ts hc hn
      simp only [INT64_MIN, INT64_MAX] at hlo h1
      simp only [hn, if_true]
      rw [wrap64_of_range _ (by omega) (by omega)]
      omega

/-- C17 (amended), instance: `null_counts = 5` and a reported null count of 3. -/
theorem null_counts_monotone_witness :
    ({ name := "n", physical_type := ParquetType.INT64, null_counts := 5 } :
        ColumnSummary Int).null_counts ≤
      (update_with_chunk_stats .int64
        { name := "n", physical_type := ParquetType.INT64, null_counts := 5 }
        (some (.int64 ⟨false, 0, 0, true, 3⟩))).null_counts :=
  null_counts_monotone .int64 { name := "n", physical_type := ParquetType.INT64, null_counts := 5 }
    (some (.int64 ⟨false, 0, 0, true, 3⟩)) (by decide) (by
      intro ts h _
      simp only [typed_cast, Option.some.injEq] at h
      subst h
      decide)

/-! ## The `max` bound and the consistency of the two bounds -/

/-- The `max` of a folded fresh summary, for a totally ordered value type: absent
exactly when no chunk contributes bounds, otherwise a contributed chunk max that
is not greater than any contributed chunk max. -/
theorem fold_max_least (k : ValueKind) (ord : StrictTotal k) (name : String) (t : ParquetType)
    (l : List (Option Statistics)) :
    ((fold_chunks k (fresh k name t) l).max = none ↔ usable_bounds k l = []) ∧
      ∀ m, (fold_chunks k (fresh k name t) l).max = some m →
        m ∈ (usable_bounds k l).map (·.max) ∧
          ∀ x ∈ (usable_bounds k l).map (·.max), value_gt k m x = false := by
  rw [fold_chunks_max]
  have h0 : (fresh k name t).max = none := rfl
  rw [h0]
  constructor
  · rw [foldl_extend_bound_eq_none]
    simp
  · intro m hm
    obtain ⟨h1, -, h3⟩ := foldl_extend_bound_least k ord _ none m hm
    exact ⟨by simpa using h1, h3⟩

theorem not_gt_trans (k : ValueKind) (ord : StrictTotal k) (a b c : k.T)
    (h1 : value_gt k a b = false) (h2 : value_gt k b c = false) : value_gt k a c = false := by
  cases hac : value_gt k a c with
  | false => rfl
  | true =>
    cases hba : value_gt k b a with
    | false =>
      have e : a = b := ord.total a b h1 hba
      rw [e, h2] at hac
      cases hac
    | true =>
      rw [ord.trans b a c hba hac] at h2
      cases h2

theorem fold_bounds_consistent (k : ValueKind) (ord : StrictTotal k) (name : String)
    (t : ParquetType) (l : List (Option Statistics)) :
    ((fold_chunks k (fresh k name t) l).min = none ↔
        (fold_chunks k (fresh k name t) l).max = none) ∧
      ((∀ ts ∈ usable_bounds k l, value_gt k ts.min ts.max = false) →
        ∀ a b, (fold_chunks k (fresh k name t) l).min = some a →
          (fold_chunks k (fresh k name t) l).max = some b → value_gt k a b = false) := by
  refine ⟨by rw [(fold_min_least k ord name t l).1, (fold_max_least k ord name t l).1], ?_⟩
  intro hle a b ha hb
  obtain ⟨-, hamin⟩ := (fold_min_least k ord name t l).2 a ha
  obtain ⟨hbmem, -⟩ := (fold_max_least k ord name t l).2 b hb
  obtain ⟨ts, hts, rfl⟩ := List.mem_map.1 hbmem
  exact not_gt_trans k ord a ts.min ts.max (hamin ts.min (List.mem_map_of_mem _ hts))
    (hle ts hts)

theorem bool_not_gt_iff (a b : Bool) : value_gt .bool a b = false ↔ a ≤ b := by
  cases a <;> cases b <;> simp [value_gt]

theorem int32_not_gt_iff (a b : Int) : value_gt .int32 a b = false ↔ a ≤ b := by
  simp [value_gt]

theorem int64_not_gt_iff (a b : Int) : value_gt .int64 a b = false ↔ a ≤ b := by
  simp [value_gt]

theorem string_not_gt_iff (a b : List Byte) :
    value_gt .string a b = false ↔ ¬ List.Lex (· < ·) b a := by
  rw [← string_gt_iff_lex a b]
  simp [value_gt]

/-- C18: the `max` update uses the comparison of the `min` update, for strings and
numbers alike: for a bool, int32, int64 or byte-string column, the `max` of a
freshly made summary after folding any sequence of chunk statistics is absent
when no chunk had type-matching usable bounds and otherwise is the smallest of
the chunk max values of those chunks, not the largest (chunk maxima 9, 4, 7 give
`max = 4`). -/
theorem max_is_smallest_chunk_max (name : String) (t : ParquetType)
    (l : List (Option Statistics)) :
    (((fold_chunks .bool (fresh .bool name t) l).max = none ↔ usable_bounds .bool l = []) ∧
      ∀ m : Bool, (fold_chunks .bool (fresh .bool name t) l).max = some m →
        m ∈ (usable_bounds .bool l).map (·.max) ∧
          ∀ x ∈ (usable_bounds .bool l).map (·.max), m ≤ x) ∧
    (((fold_chunks .int32 (fresh .int32 name t) l).max = none ↔
        usable_bounds .int32 l = []) ∧
      ∀ m : Int, (fold_chunks .int32 (fresh .int32 name t) l).max = some m →
        m ∈ (usable_bounds .int32 l).map (·.max) ∧
          ∀ x ∈ (usable_bounds .int32 l).map (·.max), m ≤ x) ∧
    (((fold_chunks .int64 (fresh .int64 name t) l).max = none ↔
        usable_bounds .int64 l = []) ∧
      ∀ m : Int, (fold_chunks .int64 (fresh .int64 name t) l).max = some m →
        m ∈ (usable_bounds .int64 l).map (·.max) ∧
          ∀ x ∈ (usable_bounds .int64 l).map (·.max), m ≤ x) ∧
    (((fold_chunks .string (fresh .string name t) l).max = none ↔
        usable_bounds .string l = []) ∧
      ∀ m : List Byte, (fold_chunks .string (fresh .string name t) l).max = some m →
        m ∈ (usable_bounds .string l).map (·.max) ∧
          ∀ x ∈ (usable_bounds .string l).map (·.max), ¬ List.Lex (· < ·) x m) ∧
    (fold_chunks .int64 (fresh .int64 "n" ParquetType.INT64)
      [some (.int64 ⟨true, 0, 9, true, 0⟩), some (.int64 ⟨true, 0, 4, true, 0⟩),
        some (.int64 ⟨true, 0, 7, true, 0⟩)]).max = some (4 : Int) := by
  refine ⟨⟨(fold_max_least .bool strictTotal_bool name t l).1, fun m hm => ?_⟩,
    ⟨(fold_max_least .int32 strictTotal_int32 name t l).1, fun m hm => ?_⟩,
    ⟨(fold_max_least .int64 strictTotal_int64 name t l).1, fun m hm => ?_⟩,
    ⟨(fold_max_least .string strictTotal_string name t l).1, fun m hm => ?_⟩, by decide⟩
  · obtain ⟨h1, h2⟩ := (fold_max_least .bool strictTotal_bool name t l).2 m hm
    exact ⟨h1, fun x hx => (bool_not_gt_iff m x).1 (h2 x hx)⟩
  · obtain ⟨h1, h2⟩ := (fold_max_least .int32 strictTotal_int32 name t l).2 m hm
    exact ⟨h1, fun x hx => (int32_not_gt_iff m x).1 (h2 x hx)⟩
  · obtain ⟨h1, h2⟩ := (fold_max_least .int64 strictTotal_int64 name t l).2 m hm
    exact ⟨h1, fun x hx => (int64_not_gt_iff m x).1 (h2 x hx)⟩
  · obtain ⟨h1, h2⟩ := (fold_max_least .string strictTotal_string name t l).2 m hm
    exact ⟨h1, fun x hx => (string_not_gt_iff m x).1 (h2 x hx)⟩

/-- C18, instance: a boolean column whose chunks report the maxima true and false
ends with `max = false`. -/
theorem max_is_smallest_chunk_max_witness :
    false ∈ (usable_bounds .bool
        [some (.boolean ⟨true, false, true, true, 0⟩), none,
          some (.boolean ⟨true, false, false, true, 0⟩)]).map (·.max) ∧
      ∀ x ∈ (usable_bounds .bool
        [some (.boolean ⟨true, false, true, true, 0⟩), none,
          some (.boolean ⟨true, false, false, true, 0⟩)]).map (·.max), false ≤ x :=
  (max_is_smallest_chunk_max "flag" ParquetType.BOOLEAN _).1.2 false (by decide)

/-- C19: for a bool, int32, int64 or byte-string column, after folding any sequence
of chunk statistics into a freshly made summary `min` and `max` are both absent
or both present, and when every chunk with usable bounds reports `min <= max`,
the summary's `min` is `<=` its `max` whenever they are present. -/
theorem bounds_consistent (name : String) (t : ParquetType) (l : List (Option Statistics)) :
    (((fold_chunks .bool (fresh .bool name t) l).min = none ↔
        (fold_chunks .bool (fresh .bool name t) l).max = none) ∧
      ((∀ ts ∈ usable_bounds .bool l, ts.min ≤ ts.max) →
        ∀ a b : Bool, (fold_chunks .bool (fresh .bool name t) l).min = some a →
          (fold_chunks .bool (fresh .bool name t) l).max = some b → a ≤ b)) ∧
    (((fold_chunks .int32 (fresh .int32 name t) l).min = none ↔
        (fold_chunks .int32 (fresh .int32 name t) l).max = none) ∧
      ((∀ ts ∈ usable_bounds .int32 l, ts.min ≤ ts.max) →
        ∀ a b : Int, (fold_chunks .int32 (fresh .int32 name t) l).min = some a →
          (fold_chunks .int32 (fresh .int32 name t) l).max = some b → a ≤ b)) ∧
    (((fold_chunks .int64 (fresh .int64 name t) l).min = none ↔
        (fold_chunks .int64 (fresh .int64 name t) l).max = none) ∧
      ((∀ ts ∈ usable_bounds .int64 l, ts.min ≤ ts.max) →
        ∀ a b : Int, (fold_chunks .int64 (fresh .int64 name t) l).min = some a →
          (fold_chunks .int64 (fresh .int64 name t) l).max = some b → a ≤ b)) ∧
    (((fold_chunks .string (fresh .string name t) l).min = none ↔
        (fold_chunks .string (fresh .string name t) l).max = none) ∧
      ((∀ ts ∈ usable_bounds .string l, ¬ List.Lex (· < ·) ts.max ts.min) →
        ∀ a b : List Byte, (fold_chunks .string (fresh .string name t) l).min = some a →
          (fold_chunks .string (fresh .string name t) l).max = some b →
            ¬ List.Lex (· < ·) b a)) := by
  refine ⟨⟨(fold_bounds_consistent .bool strictTotal_bool name t l).1, fun h a b ha hb => ?_⟩,
    ⟨(fold_bounds_consistent .int32 strictTotal_int32 name t l).1, fun h a b ha hb => ?_⟩,
    ⟨(fold_bounds_consistent .int64 strictTotal_int64 name t l).1, fun h a b ha hb => ?_⟩,
    ⟨(fold_bounds_consistent .string strictTotal_string name t l).1, fun h a b ha hb => ?_⟩⟩
  · exact (bool_not_gt_iff a b).1 ((fold_bounds_consistent .bool strictTotal_bool name t l).2
      (fun ts hts => (bool_not_gt_iff _ _).2 (h ts hts)) a b ha hb)
  · exact (int32_not_gt_iff a b).1 ((fold_bounds_consistent .int32 strictTotal_int32 name t l).2
      (fun ts hts => (int32_not_gt_iff _ _).2 (h ts hts)) a b ha hb)
  · exact (int64_not_gt_iff a b).1 ((fold_bounds_consistent .int64 strictTotal_int64 name t l).2
      (fun ts hts => (int64_not_gt_iff _ _).2 (h ts hts)) a b ha hb)
  · exact (string_not_gt_iff a b).1
      ((fold_bounds_consistent .string strictTotal_string name t l).2
        (fun ts hts => (string_not_gt_iff _ _).2 (h ts hts)) a b ha hb)

/-- C19, instance: an int32 column folded with chunks of bounds (3, 8) and (5, 6)
and an absent statistics object; its final bounds are 3 and 6. -/
theorem bounds_consistent_witness :
    ∀ a b : Int,
      (fold_chunks .int32 (fresh .int32 "n" ParquetType.INT32)
        [some (.int32 ⟨true, 3, 8, true, 0⟩), none,
          some (.int32 ⟨true, 5, 6, false, 0⟩)]).min = some a →
      (fold_chunks .int32 (fresh .int32 "n" ParquetType.INT32)
        [some (.int32 ⟨true, 3, 8, true, 0⟩), none,
          some (.int32 ⟨true, 5, 6, false, 0⟩)]).max = some b → a ≤ b :=
  (bounds_consistent "n" ParquetType.INT32
    [some (.int32 ⟨true, 3, 8, true, 0⟩), none, some (.int32 ⟨true, 5, 6, false, 0⟩)]).2.1.2
    (by decide)

end ParquetSummary
